import Mathlib

/-!
Shallow embedding of the dependency-resolution engine of `dependency_analyzer.py`
(class `DependencyAnalyzer`) and proofs about it.

Modelling conventions:
* Filesystem paths are lists of path segments (`List String`); the catalog's
  `relative_path` strings are represented by their segment lists, and path
  equality is segment-list equality.  `pathlib` parsing drops `"."` and empty
  segments and `Path.resolve()` normalizes `".."` lexically; both are modelled
  explicitly below.
* The `all_files` dict is an association list `List (String × FileInfo)` in
  iteration (insertion) order; dict lookup takes the first binding with the key.
* Python `list(set(xs))` deduplicates with unspecified order; it is modelled by
  `List.dedup` (the claims under study are insensitive to the order of the
  deduplicated list).
* `float` arithmetic is modelled by exact rational arithmetic (`ℚ`); Python's
  `round(x, 2)` is modelled by round-half-to-even at two decimals.
* File contents are not modelled: the per-file raw extraction results (the
  module names collected by the `ast` walk for Python, the regex matches for
  JavaScript family files) are inputs `rawI : String → List String`, keyed by
  file id, and similarly `rawE` for raw export matches.
-/

namespace DepAnalyzer

/-- One record of the `all_files` catalog (`FileRecord`).  The absolute `path`
and `size` fields are omitted: the analyzed logic reads them only to open the
file on disk, which is abstracted by the `rawI`/`rawE` inputs. -/
structure FileInfo where
  relative_path : List String
  extension : String
deriving DecidableEq, Repr

/-- The `all_files` dict as an association list in iteration order. -/
abbrev Catalog := List (String × FileInfo)

/-- Dataclass `DependencyNode` (lines 10-20). -/
structure DependencyNode where
  file_id : String
  file_path : List String
  file_type : String
  imports : List String
  exports : List String
  dependencies : List String
  dependents : List String
  is_entry_point : Bool
  is_leaf : Bool
deriving DecidableEq, Repr

/-- Dataclass `MissingDependency` (lines 22-29). -/
structure MissingDependency where
  required_by : String
  required_by_path : List String
  missing_import : String
  suggested_file : Option String
  confidence : ℚ
  reason : String
deriving DecidableEq, Repr

/-- The dict returned by `_suggest_missing_file` (lines 315-343). -/
structure Suggestion where
  file_id : String
  confidence : ℚ
  reason : String
deriving DecidableEq, Repr

/-- The numeric fields of the dict returned by `_calculate_metrics`
(lines 353-396).  The `most_dependent_file` field is omitted (no claim under
study mentions it). -/
structure Metrics where
  total_files : ℕ
  entry_points : ℕ
  leaf_nodes : ℕ
  average_dependencies : ℚ
  max_dependencies : ℕ
  coupling_score : ℚ
deriving DecidableEq, Repr

/-- The dict returned by `analyze_dependencies` (lines 96-106).  The `graph`
visualization payload (`_generate_graph_data`) is omitted (no claim under study
mentions it). -/
structure AnalysisResult where
  nodes : List (String × DependencyNode)
  missing_dependencies : List MissingDependency
  circular_dependencies : List (List String)
  metrics : Metrics
  completeness_score : ℚ
deriving DecidableEq, Repr

/-- Round-half-to-even to the nearest integer, as Python's `round`. -/
def roundHalfEven (q : ℚ) : ℤ :=
  if q - (⌊q⌋ : ℚ) < 1 / 2 then ⌊q⌋
  else if 1 / 2 < q - (⌊q⌋ : ℚ) then ⌊q⌋ + 1
  else if ⌊q⌋ % 2 = 0 then ⌊q⌋ else ⌊q⌋ + 1

/-- Python `round(x, 2)`. -/
def round2 (q : ℚ) : ℚ := ((roundHalfEven (q * 100) : ℚ)) / 100

/-- Extension test of line 117. -/
def jsLike (ext : String) : Bool :=
  ext == ".js" || ext == ".jsx" || ext == ".ts" || ext == ".tsx"

/-- `str.startswith`, implemented structurally on the character lists. -/
def strStartsWith (s pre : String) : Bool := pre.data.isPrefixOf s.data

/-- `str.strip()`: drop whitespace from both ends, structurally. -/
def strTrim (s : String) : String :=
  ⟨((s.data.dropWhile Char.isWhitespace).reverse.dropWhile
      Char.isWhitespace).reverse⟩

/-- Split a character list at every occurrence of `c` (the semantics of
Python's `split('/')` / `str.splitOn`), structurally. -/
def splitChar (c : Char) : List Char → List (List Char)
  | [] => [[]]
  | a :: t =>
    match splitChar c t, a == c with
    | r, true => [] :: r
    | [], false => [[a]]
    | h :: r, false => (a :: h) :: r

/-- The keep/drop filtering of `_extract_javascript_imports` (lines 155-163):
a stripped specifier is kept iff it starts with `.`, starts with `@`, or
contains `/`. -/
def jsImportKept (s : String) : Bool :=
  strStartsWith s "." || strStartsWith s "@" || s.data.contains '/'

/-- `_extract_imports` (lines 108-165), starting from the raw per-statement
extraction results (`ast` module names for `.py`; regex matches for the
JavaScript family).  Both per-language extractors end in `list(set(...))`,
modelled by `List.dedup`. -/
def extract_imports (ext : String) (raw : List String) : List String :=
  if ext = ".py" then raw.dedup
  else if jsLike ext then ((raw.map strTrim).filter jsImportKept).dedup
  else []

/-- Line 244: `['.py'] if file_type == '.py' else ['.js', '.jsx', '.ts', '.tsx']`. -/
def extsFor (fileType : String) : List String :=
  if fileType = ".py" then [".py"] else [".js", ".jsx", ".ts", ".tsx"]

/-- `pathlib` parsing of a relative path string: split on `/`, drop empty and
`"."` segments (`".."` is kept). -/
def parseRelPath (s : String) : List String :=
  ((splitChar '/' s.data).map (fun l => (⟨l⟩ : String))).filter
    (fun seg => !(seg == "" || seg == "."))

/-- Lexical `Path.resolve()` normalization of the segments following the
filesystem root: `".."` pops the previous segment (clamping at the root), `"."`
and empty segments vanish. -/
def normalizeSegs (segs : List String) : List String :=
  segs.foldl
    (fun acc seg =>
      if seg = ".." then acc.dropLast
      else if seg = "." ∨ seg = "" then acc
      else acc ++ [seg]) []

/-- `pathlib` `Path.suffix`/`with_suffix` semantics on one name: the suffix is
the part from the last `'.'` whose index `i` satisfies `0 < i < len - 1`; it is
replaced by `ext`, and if there is no suffix, `ext` is appended. -/
def withSuffixName (name ext : String) : String :=
  let cs := name.data
  match cs.reverse.findIdx? (fun c => c = '.') with
  | some j =>
    let i := cs.length - 1 - j
    if 0 < i ∧ i + 1 < cs.length then ⟨cs.take i⟩ ++ ext else name ++ ext
  | none => name ++ ext

/-- `candidate.with_suffix(ext)` on a segment path (line 253). -/
def withSuffixSegs (segs : List String) (ext : String) : List String :=
  match segs.getLast? with
  | some nm => segs.dropLast ++ [withSuffixName nm ext]
  | none => []

/-- `candidate.relative_to(self.root_dir)` (lines 255, 268): succeeds exactly
when the root is a lexical prefix of the candidate. -/
def stripRoot (root candidate : List String) : Option (List String) :=
  if candidate.take root.length = root then some (candidate.drop root.length)
  else none

/-- The catalog membership test of lines 257-260 / 269-272. -/
def catalogHasPath (allFiles : Catalog) (rel : List String) : Bool :=
  allFiles.any (fun e => e.2.relative_path == rel)

/-- One candidate test of `_resolve_import_path` (lines 254-263 / 267-275):
`relative_to` the root, then catalog membership; `some rel` when the candidate
matches a catalog entry. -/
def checkCandidate (allFiles : Catalog) (root : List String)
    (candidate : List String) : Option (List String) :=
  match stripRoot root candidate with
  | some rel => if catalogHasPath allFiles rel then some rel else none
  | none => none

/-- Line 247: `(self.root_dir / current_dir / import_path).resolve()`. -/
def resolvedAbs (root currentDir : List String) (importPath : String) :
    List String :=
  normalizeSegs (root ++ currentDir ++ parseRelPath importPath)

/-- `_resolve_import_path` (lines 235-277). -/
def resolve_import_path (allFiles : Catalog) (root : List String)
    (importPath : String) (currentDir : List String) (fileType : String) :
    Option (List String) :=
  if !(strStartsWith importPath ".") then none
  else
    match (extsFor fileType).findSome? (fun ext =>
        checkCandidate allFiles root
          (withSuffixSegs (resolvedAbs root currentDir importPath) ext)) with
    | some rel => some rel
    | none =>
      (extsFor fileType).findSome? (fun ext =>
        checkCandidate allFiles root
          (resolvedAbs root currentDir importPath ++ ["index" ++ ext]))

/-- Declarative restatement of `_resolve_import_path` used by the amended
claim C4: all direct-file candidates (the final segment's suffix REPLACED by
each family extension, in extension order), then all directory-index
candidates; the first candidate matching a catalog entry by root-relative path
wins, so a direct-file match always beats a directory-index match. -/
def resolve_import_path_spec (allFiles : Catalog) (root : List String)
    (importPath : String) (currentDir : List String) (fileType : String) :
    Option (List String) :=
  if !(strStartsWith importPath ".") then none
  else
    (((extsFor fileType).map (withSuffixSegs (resolvedAbs root currentDir importPath)) ++
        (extsFor fileType).map
          (fun ext => resolvedAbs root currentDir importPath ++ ["index" ++ ext])).filterMap
      (checkCandidate allFiles root)).head?

/-- Modelled from the spec: claim C4 says the resolver "appends that extension
to the candidate path"; this appends the extension to the final segment (so
`style.css` becomes `style.css.js`), instead of the suffix replacement that
`with_suffix` performs. -/
def appendExtSegs (segs : List String) (ext : String) : List String :=
  match segs.getLast? with
  | some nm => segs.dropLast ++ [nm ++ ext]
  | none => []

/-- Modelled from the spec: the resolution algorithm exactly as claim C4 words
it, with each family extension APPENDED to the candidate path. -/
def resolve_import_path_append_claim (allFiles : Catalog) (root : List String)
    (importPath : String) (currentDir : List String) (fileType : String) :
    Option (List String) :=
  if !(strStartsWith importPath ".") then none
  else
    (((extsFor fileType).map (appendExtSegs (resolvedAbs root currentDir importPath)) ++
        (extsFor fileType).map
          (fun ext => resolvedAbs root currentDir importPath ++ ["index" ++ ext])).filterMap
      (checkCandidate allFiles root)).head?

/-- The `(relative_path, file_id)` pairs inserted into `file_path_to_id`
(lines 203-207), in insertion order. -/
def selectedPathPairs (allFiles : Catalog) (selected : List String) :
    List (List String × String) :=
  selected.filterMap
    (fun fid => (allFiles.lookup fid).map (fun info => (info.relative_path, fid)))

/-- Lookup in the `file_path_to_id` dict: later insertions overwrite earlier
ones, hence lookup on the reversed pair list. -/
def pathToId (allFiles : Catalog) (selected : List String) (p : List String) :
    Option String :=
  (selectedPathPairs allFiles selected).reverse.lookup p

/-- The `(file_id, file_info)` pairs for which a node is created
(lines 56-77): selected ids found in the catalog, one node per distinct id
(the dict `nodes` keeps one entry per key). -/
def initialNodes (allFiles : Catalog) (selected : List String) :
    List (String × FileInfo) :=
  selected.dedup.filterMap
    (fun fid => (allFiles.lookup fid).map (fun info => (fid, info)))

/-- The edge, if any, contributed by one import of one node (lines 213-229):
resolve the specifier, look it up among the selected files' paths, and drop
self-edges. -/
def edgeTarget (allFiles : Catalog) (root : List String) (selected : List String)
    (fid : String) (info : FileInfo) (imp : String) : Option String :=
  match resolve_import_path allFiles root imp info.relative_path.dropLast
      info.extension with
  | some p =>
    match pathToId allFiles selected p with
    | some dep => if dep ≠ fid then some dep else none
    | none => none
  | none => none

/-- The final `dependencies` list of the node with id `fid` (appends of
line 224, in import order). -/
def depsOf (allFiles : Catalog) (root : List String) (selected : List String)
    (rawI : String → List String) (fid : String) (info : FileInfo) :
    List String :=
  (extract_imports info.extension (rawI fid)).filterMap
    (edgeTarget allFiles root selected fid info)

/-- The final `dependents` list of the node with id `fid` (appends of
line 227): one occurrence of `gid` per import of `gid` that resolves to `fid`,
in node iteration order.  (The `dep_file_id in nodes` guard of line 226 always
holds: `pathToId` only returns ids of selected catalog files, which all have
nodes.) -/
def dependentsOf (allFiles : Catalog) (root : List String)
    (selected : List String) (rawI : String → List String) (fid : String) :
    List String :=
  (initialNodes allFiles selected).flatMap (fun e =>
    ((depsOf allFiles root selected rawI e.1 e.2).filter (fun d => d == fid)).map
      (fun _ => e.1))

/-- One finished node (lines 67-75 for the static fields, lines 224-233 for
the edge lists and flags). -/
def mkNode (allFiles : Catalog) (root : List String) (selected : List String)
    (rawI rawE : String → List String) (e : String × FileInfo) :
    String × DependencyNode :=
  let deps := depsOf allFiles root selected rawI e.1 e.2
  let dpts := dependentsOf allFiles root selected rawI e.1
  (e.1,
    { file_id := e.1
      file_path := e.2.relative_path
      file_type := e.2.extension
      imports := extract_imports e.2.extension (rawI e.1)
      exports := (rawE e.1).dedup
      dependencies := deps
      dependents := dpts
      is_entry_point := dpts.isEmpty
      is_leaf := deps.isEmpty })

/-- The finished node map (`nodes` after `_resolve_dependencies`, lines 53-86
and 198-233), with the entry/leaf flags computed from the final edge lists
(lines 231-233). -/
def analyzedNodes (allFiles : Catalog) (root : List String)
    (selected : List String) (rawI rawE : String → List String) :
    List (String × DependencyNode) :=
  (initialNodes allFiles selected).map (mkNode allFiles root selected rawI rawE)

/-- `Path(p).name`: the last segment (`""` for the empty relative path, as for
`Path('.')`). -/
def pathName (segs : List String) : String := (segs.getLast?).getD ""

/-- `str()` of a relative segment path, used inside reason strings. -/
def pathString (segs : List String) : String := String.intercalate "/" segs

/-- Python substring test `a in b`. -/
def isSubstring (a b : String) : Bool := decide (a.data <:+: b.data)

/-- `_suggest_missing_file` (lines 315-343).  First an exact relative-path scan
over the whole catalog; otherwise one combined pass collects filename-equality
candidates (confidence 0.8) and substring candidates (confidence 0.5) in
catalog iteration order and keeps `candidates[0]`. -/
def suggest_missing_file (allFiles : Catalog) (missingPath : List String) :
    Option Suggestion :=
  match allFiles.find? (fun e => e.2.relative_path == missingPath) with
  | some e => some ⟨e.1, 1, "Exact path match found"⟩
  | none =>
    let missingName := pathName missingPath
    let candidates := allFiles.filterMap (fun e =>
      let fileName := pathName e.2.relative_path
      if fileName = missingName then
        some ⟨e.1, 4 / 5, "Filename matches: " ++ pathString e.2.relative_path⟩
      else if isSubstring missingName fileName || isSubstring fileName missingName then
        some ⟨e.1, 1 / 2, "Similar filename: " ++ pathString e.2.relative_path⟩
      else none)
    candidates.head?

/-- The `selected_paths` set of lines 285-289. -/
def selected_paths (allFiles : Catalog) (selected : List String) :
    List (List String) :=
  selected.filterMap
    (fun fid => (allFiles.lookup fid).map (fun info => info.relative_path))

/-- The MissingDependency (if any) produced by one import of one node
(lines 294-311).  Note the guard of line 301: an entry is appended only when
`resolved_path` is non-`None` (and outside the selected paths); an import the
resolver fails on produces nothing. -/
def missingFor (allFiles : Catalog) (root : List String)
    (selected : List String) (fid : String) (node : DependencyNode)
    (imp : String) : Option MissingDependency :=
  match resolve_import_path allFiles root imp node.file_path.dropLast
      node.file_type with
  | some p =>
    if p ∈ selected_paths allFiles selected then none
    else
      some
        { required_by := fid
          required_by_path := node.file_path
          missing_import := imp
          suggested_file := (suggest_missing_file allFiles p).map Suggestion.file_id
          confidence :=
            ((suggest_missing_file allFiles p).map Suggestion.confidence).getD 0
          reason :=
            ((suggest_missing_file allFiles p).map Suggestion.reason).getD
              "File not found" }
  | none => none

/-- `_find_missing_dependencies` (lines 279-313). -/
def find_missing_dependencies (allFiles : Catalog) (root : List String)
    (selected : List String) (rawI rawE : String → List String) :
    List MissingDependency :=
  (analyzedNodes allFiles root selected rawI rawE).flatMap (fun e =>
    e.2.imports.filterMap (missingFor allFiles root selected e.1 e.2))

/-- The edges registered in `self.dependency_graph` (line 229): exactly the
`dependencies` entries, as (source, target) pairs. -/
def edgeList (allFiles : Catalog) (root : List String) (selected : List String)
    (rawI rawE : String → List String) : List (String × String) :=
  (analyzedNodes allFiles root selected rawI rawE).flatMap
    (fun e => e.2.dependencies.map (fun d => (e.1, d)))

/-- An elementary cycle (simple closed directed walk) of the relation `R`:
nonempty, no repeated node, consecutive edges, and a closing edge from the last
node back to the first. -/
def IsCycleOf (R : String → String → Prop) (c : List String) : Prop :=
  c ≠ [] ∧ c.Nodup ∧ List.Chain' R c ∧ R (c.getLast?.getD "") (c.head?.getD "")

/-- Structurally recursive decidability of `Chain'` over an edge list (the
library instance does not evaluate inside the kernel). -/
instance decChainE (E : List (String × String)) :
    (c : List String) → Decidable (List.Chain' (fun a b => (a, b) ∈ E) c)
  | [] => isTrue List.chain'_nil
  | [_] => isTrue (List.chain'_singleton _)
  | a :: b :: t =>
    match inferInstanceAs (Decidable ((a, b) ∈ E)), decChainE E (b :: t) with
    | isTrue hab, isTrue ht => isTrue (List.chain'_cons.mpr ⟨hab, ht⟩)
    | isFalse hab, _ => isFalse (fun h => hab (List.chain'_cons.mp h).1)
    | _, isFalse ht => isFalse (fun h => ht (List.chain'_cons.mp h).2)

instance instDecIsCycleOf (E : List (String × String)) (c : List String) :
    Decidable (IsCycleOf (fun a b => (a, b) ∈ E) c) :=
  decidable_of_iff
    (c ≠ [] ∧ c.Nodup ∧ List.Chain' (fun a b => (a, b) ∈ E) c ∧
      (c.getLast?.getD "", c.head?.getD "") ∈ E) Iff.rfl

/-- Canonical rotation marker: the head of the cycle is a node of minimal
index in `nodeOrder` among the cycle's members. -/
def canonicalHead (nodeOrder : List String) (c : List String) : Bool :=
  match c with
  | [] => false
  | x :: _ => c.all (fun y => decide (nodeOrder.indexOf x ≤ nodeOrder.indexOf y))

/-- Modelled contract of `networkx.simple_cycles` (used at line 347): the list
of all elementary cycles of the directed graph, one representative per rotation
class (networkx leaves the rotation unspecified; the model fixes the rotation
starting at the member of least node index). -/
def simple_cycles (nodeOrder : List String) (E : List (String × String)) :
    List (List String) :=
  (nodeOrder.sublists.flatMap List.permutations').filter
    (fun c =>
      decide (IsCycleOf (fun a b => (a, b) ∈ E) c) && canonicalHead nodeOrder c)

/-- `_detect_circular_dependencies` (lines 345-351): `nx.simple_cycles` over
the `DiGraph` whose nodes are the analyzed file ids (line 78) and whose edges
are those of line 229. -/
def detect_circular_dependencies (allFiles : Catalog) (root : List String)
    (selected : List String) (rawI rawE : String → List String) :
    List (List String) :=
  simple_cycles ((analyzedNodes allFiles root selected rawI rawE).map Prod.fst)
    (edgeList allFiles root selected rawI rawE)

/-- `_calculate_metrics` (lines 353-396), numeric fields. -/
def calculate_metrics (nodes : List (String × DependencyNode)) : Metrics :=
  let total := nodes.length
  if total = 0 then ⟨0, 0, 0, 0, 0, 0⟩
  else
    let depCounts := nodes.map (fun e => e.2.dependencies.length)
    let actual := depCounts.sum
    let possible := total * (total - 1)
    { total_files := total
      entry_points := (nodes.filter (fun e => e.2.is_entry_point)).length
      leaf_nodes := (nodes.filter (fun e => e.2.is_leaf)).length
      average_dependencies := round2 ((actual : ℚ) / (total : ℚ))
      max_dependencies := depCounts.foldr max 0
      coupling_score :=
        round2 (if 0 < possible then (actual : ℚ) / (possible : ℚ) * 100 else 0) }

/-- `_calculate_completeness_score` (lines 425-436). -/
def calculate_completeness_score (selectedCount missingCount : ℕ) : ℚ :=
  if selectedCount = 0 then 0
  else round2 ((selectedCount : ℚ) / ((selectedCount : ℚ) + (missingCount : ℚ)) * 100)

/-- `analyze_dependencies` (lines 53-106).  `selected.length` is the raw
`len(selected_files)` (line 103), duplicates and unknown ids included. -/
def analyze_dependencies (allFiles : Catalog) (root : List String)
    (selected : List String) (rawI rawE : String → List String) :
    AnalysisResult :=
  let nodes := analyzedNodes allFiles root selected rawI rawE
  { nodes := nodes
    missing_dependencies := find_missing_dependencies allFiles root selected rawI rawE
    circular_dependencies := detect_circular_dependencies allFiles root selected rawI rawE
    metrics := calculate_metrics nodes
    completeness_score :=
      calculate_completeness_score selected.length
        (find_missing_dependencies allFiles root selected rawI rawE).length }

/-- A two-file catalog used by several concrete instantiations below. -/
def abCatalog : Catalog := [("a", ⟨["a.js"], ".js"⟩), ("b", ⟨["b.js"], ".js"⟩)]

/-- Raw extraction input: file `a` imports `./b`, nothing else. -/
def importBRaw : String → List String := fun f => if f = "a" then ["./b"] else []

/-- Raw extraction input: no matches at all. -/
def noRaw : String → List String := fun _ => []

/-- A selection list of raw length 100000: one analyzable id and 99999 copies
of an id absent from the catalog (unknown ids are skipped when building nodes
but still counted by `len(selected_files)` at line 103). -/
def bigSelection : List String := "a" :: List.replicate 99999 "zz"

/-- A three-file catalog whose selected files import each other in a cycle:
`a.js` imports `./b`, `b.js` imports `./c`, `c.js` imports `./a`. -/
def cyc3Catalog : Catalog :=
  [("a", ⟨["a.js"], ".js"⟩), ("b", ⟨["b.js"], ".js"⟩), ("c", ⟨["c.js"], ".js"⟩)]

/-- Raw extraction input for the three-file cycle. -/
def cyc3Raw : String → List String := fun f =>
  if f = "a" then ["./b"]
  else if f = "b" then ["./c"]
  else if f = "c" then ["./a"]
  else []

/-! ## General helper lemmas -/

theorem findSome?_eq_head?_filterMap {α β : Type} (f : α → Option β)
    (l : List α) : l.findSome? f = (l.filterMap f).head? := by
  induction l with
  | nil => rfl
  | cons a t ih =>
    rw [List.findSome?_cons]
    cases h : f a with
    | none =>
      rw [List.filterMap_cons_none h]
      exact ih
    | some b =>
      rw [List.filterMap_cons_some h, List.head?_cons]

theorem roundHalfEven_intCast (z : ℤ) : roundHalfEven ((z : ℚ)) = z := by
  unfold roundHalfEven
  rw [Int.floor_intCast]
  norm_num

theorem round2_eq_of_mul_hundred {q : ℚ} (z : ℤ) (h : q * 100 = (z : ℚ)) :
    round2 q = (z : ℚ) / 100 := by
  rw [round2, h, roundHalfEven_intCast]

theorem round2_zero : round2 0 = 0 := by
  rw [round2_eq_of_mul_hundred 0 (by norm_num)]
  norm_num

theorem roundHalfEven_nonneg {q : ℚ} (h : 0 ≤ q) : 0 ≤ roundHalfEven q := by
  have hf : (0 : ℤ) ≤ ⌊q⌋ := Int.floor_nonneg.mpr h
  unfold roundHalfEven
  split
  · exact hf
  · split
    · omega
    · split
      · exact hf
      · omega

theorem round2_nonneg {q : ℚ} (h : 0 ≤ q) : 0 ≤ round2 q := by
  unfold round2
  have h0 : (0 : ℚ) ≤ (roundHalfEven (q * 100) : ℚ) := by
    exact_mod_cast roundHalfEven_nonneg (by positivity)
  positivity

theorem roundHalfEven_eq_add_one {q : ℚ} {z : ℤ} (h1 : ⌊q⌋ = z)
    (h2 : 1 / 2 < q - (z : ℚ)) : roundHalfEven q = z + 1 := by
  unfold roundHalfEven
  rw [h1, if_neg (by linarith), if_pos h2]

theorem dedup_replicate {α : Type} [DecidableEq α] (n : ℕ) (hn : n ≠ 0)
    (z : α) : (List.replicate n z).dedup = [z] := by
  induction n with
  | zero => exact absurd rfl hn
  | succ n ih =>
    cases Nat.eq_zero_or_pos n with
    | inl h0 => subst h0; simp
    | inr hpos =>
      rw [List.replicate_succ, List.dedup_cons_of_mem
        (List.mem_replicate.mpr ⟨Nat.pos_iff_ne_zero.mp hpos, rfl⟩)]
      exact ih (Nat.pos_iff_ne_zero.mp hpos)

theorem filterMap_replicate_none {α β : Type} (f : α → Option β) (n : ℕ)
    (z : α) (h : f z = none) : (List.replicate n z).filterMap f = [] := by
  induction n with
  | zero => rfl
  | succ n ih => rw [List.replicate_succ, List.filterMap_cons_none h, ih]

theorem filterMap_cons_replicate {α β : Type} (f : α → Option β) (n : ℕ)
    (a z : α) (b : β) (ha : f a = some b) (hz : f z = none) :
    (a :: List.replicate n z).filterMap f = [b] := by
  rw [List.filterMap_cons_some ha, filterMap_replicate_none f n z hz]

theorem missingFor_eq_of_out {a : Catalog} {r s : List String} {fid : String}
    {node : DependencyNode} {imp : String} {p : List String}
    (hres : resolve_import_path a r imp node.file_path.dropLast node.file_type =
      some p)
    (hout : p ∉ selected_paths a s) :
    missingFor a r s fid node imp = some
      { required_by := fid, required_by_path := node.file_path,
        missing_import := imp,
        suggested_file := (suggest_missing_file a p).map Suggestion.file_id,
        confidence := ((suggest_missing_file a p).map Suggestion.confidence).getD 0,
        reason := ((suggest_missing_file a p).map Suggestion.reason).getD
          "File not found" } := by
  unfold missingFor
  rw [hres]
  dsimp only
  rw [if_neg hout]

theorem map_fst_keyed (a : Catalog) (l : List String) :
    ((l.filterMap (fun fid => (List.lookup fid a).map (fun info => (fid, info)))).map
        Prod.fst) =
      l.filter (fun fid => (List.lookup fid a).isSome) := by
  induction l with
  | nil => rfl
  | cons x t ih =>
    rw [List.filterMap_cons, List.filter_cons]
    cases h : List.lookup x a with
    | none => simp [h, ih]
    | some info => simp [h, ih]

theorem initialNodes_keys_nodup (a : Catalog) (s : List String) :
    ((initialNodes a s).map Prod.fst).Nodup := by
  unfold initialNodes
  rw [map_fst_keyed]
  exact (s.nodup_dedup).filter _

theorem analyzedNodes_keys (a : Catalog) (r s : List String)
    (i e : String → List String) :
    (analyzedNodes a r s i e).map Prod.fst = (initialNodes a s).map Prod.fst := by
  unfold analyzedNodes
  rw [List.map_map]
  exact List.map_congr_left (fun x _ => rfl)

theorem analyzedNodes_keys_nodup (a : Catalog) (r s : List String)
    (i e : String → List String) :
    ((analyzedNodes a r s i e).map Prod.fst).Nodup := by
  rw [analyzedNodes_keys]
  exact initialNodes_keys_nodup a s

theorem mem_initialNodes {a : Catalog} {s : List String} {fid : String}
    {info : FileInfo} :
    (fid, info) ∈ initialNodes a s ↔
      fid ∈ s ∧ List.lookup fid a = some info := by
  unfold initialNodes
  rw [List.mem_filterMap]
  constructor
  · rintro ⟨x, hx, h⟩
    obtain ⟨info', hl, heq⟩ := Option.map_eq_some'.mp h
    injection heq with h1 h2
    subst h1
    subst h2
    exact ⟨List.mem_dedup.mp hx, hl⟩
  · rintro ⟨hs, hl⟩
    exact ⟨fid, List.mem_dedup.mpr hs, by rw [hl]; rfl⟩

theorem mem_analyzedNodes {a : Catalog} {r s : List String}
    {i e : String → List String} {fid : String} {node : DependencyNode} :
    (fid, node) ∈ analyzedNodes a r s i e ↔
      ∃ info, (fid, info) ∈ initialNodes a s ∧
        node = (mkNode a r s i e (fid, info)).2 := by
  unfold analyzedNodes
  rw [List.mem_map]
  constructor
  · rintro ⟨⟨p1, p2⟩, hp, heq⟩
    have h1 : p1 = fid := congrArg Prod.fst heq
    subst h1
    have h2 : (mkNode a r s i e (p1, p2)).2 = node := congrArg Prod.snd heq
    exact ⟨p2, hp, h2.symm⟩
  · rintro ⟨info, hmem, rfl⟩
    exact ⟨(fid, info), hmem, rfl⟩

theorem extract_imports_nodup (ext : String) (raw : List String) :
    (extract_imports ext raw).Nodup := by
  unfold extract_imports
  split
  · exact raw.nodup_dedup
  · split
    · exact List.nodup_dedup _
    · exact List.nodup_nil

theorem pathToId_eq_some {a : Catalog} {s : List String} {p : List String}
    {g : String} (h : pathToId a s p = some g) :
    g ∈ s ∧ ∃ info, List.lookup g a = some info ∧ info.relative_path = p := by
  unfold pathToId at h
  obtain ⟨l1, l2, hsplit, -⟩ := List.lookup_eq_some_iff.mp h
  have hmem : (p, g) ∈ (selectedPathPairs a s).reverse := by
    rw [hsplit]
    exact List.mem_append.mpr (Or.inr (List.mem_cons_self _ _))
  rw [List.mem_reverse] at hmem
  unfold selectedPathPairs at hmem
  rw [List.mem_filterMap] at hmem
  obtain ⟨fid, hfid, hfm⟩ := hmem
  obtain ⟨info, hl, heq⟩ := Option.map_eq_some'.mp hfm
  have h1 : info.relative_path = p := congrArg Prod.fst heq
  have h2 : fid = g := congrArg Prod.snd heq
  subst h2
  exact ⟨hfid, info, hl, h1⟩

theorem mem_selected_paths_of {a : Catalog} {s : List String} {g : String}
    {info : FileInfo} (hg : g ∈ s) (hl : List.lookup g a = some info) :
    info.relative_path ∈ selected_paths a s := by
  unfold selected_paths
  rw [List.mem_filterMap]
  exact ⟨g, hg, by rw [hl]; rfl⟩

theorem edgeTarget_eq_some {a : Catalog} {r s : List String} {fid : String}
    {info : FileInfo} {imp g : String}
    (h : edgeTarget a r s fid info imp = some g) :
    g ≠ fid ∧ ∃ p,
      resolve_import_path a r imp info.relative_path.dropLast info.extension =
        some p ∧ pathToId a s p = some g := by
  unfold edgeTarget at h
  cases hres : resolve_import_path a r imp info.relative_path.dropLast
      info.extension with
  | none => rw [hres] at h; exact absurd h (by simp)
  | some p =>
    rw [hres] at h
    dsimp only at h
    cases hpt : pathToId a s p with
    | none => rw [hpt] at h; exact absurd h (by simp)
    | some dep =>
      rw [hpt] at h
      dsimp only at h
      by_cases hd : dep ≠ fid
      · rw [if_pos hd] at h
        have hg : dep = g := Option.some.inj h
        subst hg
        exact ⟨hd, p, rfl, hpt⟩
      · rw [if_neg hd] at h
        exact absurd h (by simp)

theorem edgeTarget_ne_self {a : Catalog} {r s : List String} {fid : String}
    {info : FileInfo} {imp : String} :
    edgeTarget a r s fid info imp ≠ some fid := by
  intro h
  exact absurd rfl (edgeTarget_eq_some h).1

theorem count_filterMap {α β : Type} [DecidableEq α] [DecidableEq β]
    (f : α → Option β) (l : List α) (b : β) :
    (l.filterMap f).count b = l.countP (fun x => f x == some b) := by
  induction l with
  | nil => rfl
  | cons x t ih =>
    rw [List.countP_cons]
    cases h : f x with
    | none =>
      rw [List.filterMap_cons_none h, ih]
      simp
    | some y =>
      rw [List.filterMap_cons_some h, List.count_cons, ih]
      by_cases hy : b = y <;> simp [hy]

theorem count_flatMap {α β : Type} [DecidableEq β] (l : List α)
    (g : α → List β) (b : β) :
    (l.flatMap g).count b = (l.map (fun x => (g x).count b)).sum := by
  induction l with
  | nil => rfl
  | cons x t ih => rw [List.flatMap_cons, List.count_append, ih, List.map_cons,
      List.sum_cons]

theorem filter_flatMap {α β : Type} (l : List α) (g : α → List β)
    (p : β → Bool) :
    (l.flatMap g).filter p = l.flatMap (fun x => (g x).filter p) := by
  induction l with
  | nil => rfl
  | cons x t ih => rw [List.flatMap_cons, List.filter_append, ih,
      List.flatMap_cons]

theorem sum_eq_single_of_unique_key {γ : Type} (l : List (String × γ))
    (h : (l.map Prod.fst).Nodup) {fid : String} {x : γ}
    (hmem : (fid, x) ∈ l) (g : String × γ → ℕ)
    (hz : ∀ p ∈ l, p.1 ≠ fid → g p = 0) :
    (l.map g).sum = g (fid, x) := by
  induction l with
  | nil => cases hmem
  | cons p t ih =>
    rw [List.map_cons, List.sum_cons]
    rw [List.map_cons, List.nodup_cons] at h
    rcases List.mem_cons.mp hmem with heq | hmem'
    · have hfst : p.1 = fid := by rw [← heq]
      have htail : (t.map g).sum = 0 := by
        rw [List.sum_eq_zero]
        intro y hy
        obtain ⟨q, hq, rfl⟩ := List.mem_map.mp hy
        refine hz q (List.mem_cons_of_mem p hq) (fun hc => ?_)
        have hin : fid ∈ List.map Prod.fst t :=
          hc ▸ List.mem_map_of_mem Prod.fst hq
        exact h.1 (by rw [hfst]; exact hin)
      rw [htail, ← heq]
      omega
    · have hp1 : p.1 ≠ fid := by
        intro hc
        have hin : fid ∈ List.map Prod.fst t :=
          List.mem_map_of_mem Prod.fst hmem'
        exact h.1 (by rw [hc]; exact hin)
      rw [hz p (List.mem_cons_self p t) hp1,
        ih h.2 hmem' (fun q hq => hz q (List.mem_cons_of_mem p hq)),
        Nat.zero_add]

theorem flatMap_eq_single_of_unique_key {γ δ : Type} (l : List (String × γ))
    (h : (l.map Prod.fst).Nodup) {fid : String} {x : γ}
    (hmem : (fid, x) ∈ l) (g : String × γ → List δ)
    (hz : ∀ p ∈ l, p.1 ≠ fid → g p = []) :
    l.flatMap g = g (fid, x) := by
  induction l with
  | nil => cases hmem
  | cons p t ih =>
    rw [List.flatMap_cons]
    rw [List.map_cons, List.nodup_cons] at h
    rcases List.mem_cons.mp hmem with heq | hmem'
    · have hfst : p.1 = fid := by rw [← heq]
      have htail : t.flatMap g = [] := by
        rw [List.flatMap_eq_nil_iff]
        intro q hq
        refine hz q (List.mem_cons_of_mem p hq) (fun hc => ?_)
        have hin : fid ∈ List.map Prod.fst t :=
          hc ▸ List.mem_map_of_mem Prod.fst hq
        exact h.1 (by rw [hfst]; exact hin)
      rw [htail, ← heq, List.append_nil]
    · have hp1 : p.1 ≠ fid := by
        intro hc
        have hin : fid ∈ List.map Prod.fst t :=
          List.mem_map_of_mem Prod.fst hmem'
        exact h.1 (by rw [hc]; exact hin)
      rw [hz p (List.mem_cons_self p t) hp1,
        ih h.2 hmem' (fun q hq => hz q (List.mem_cons_of_mem p hq)),
        List.nil_append]

theorem filter_key_filterMap {α β : Type} [DecidableEq α] (f : α → Option β)
    (key : β → α) (hkey : ∀ x b, f x = some b → key b = x) :
    ∀ (l : List α), l.Nodup → ∀ x ∈ l,
      (l.filterMap f).filter (fun b => key b == x) = (f x).toList := by
  intro l
  induction l with
  | nil => intro _ x hx; cases hx
  | cons a t ih =>
    intro hnd x hx
    rw [List.nodup_cons] at hnd
    rcases List.mem_cons.mp hx with rfl | hx'
    · have htail : (t.filterMap f).filter (fun b => key b == x) = [] := by
        rw [List.filter_eq_nil_iff]
        intro b hb
        obtain ⟨y, hy, hfy⟩ := List.mem_filterMap.mp hb
        rw [beq_iff_eq, hkey y b hfy]
        intro hc
        exact hnd.1 (hc ▸ hy)
      cases h : f x with
      | none => rw [List.filterMap_cons_none h, htail]; rfl
      | some b =>
        rw [List.filterMap_cons_some h, List.filter_cons,
          if_pos (by rw [beq_iff_eq]; exact hkey x b h), htail]
        rfl
    · have ha : x ≠ a := by
        intro hc
        exact hnd.1 (hc ▸ hx')
      cases h : f a with
      | none => rw [List.filterMap_cons_none h]; exact ih hnd.2 x hx'
      | some b =>
        rw [List.filterMap_cons_some h, List.filter_cons,
          if_neg (by rw [beq_iff_eq, hkey a b h]; exact fun hc => ha hc.symm)]
        exact ih hnd.2 x hx'

theorem missingFor_key {a : Catalog} {r s : List String} {fid : String}
    {node : DependencyNode} {imp : String} {md : MissingDependency}
    (h : missingFor a r s fid node imp = some md) :
    md.required_by = fid ∧ md.missing_import = imp := by
  unfold missingFor at h
  cases hres : resolve_import_path a r imp node.file_path.dropLast
      node.file_type with
  | none => rw [hres] at h; exact absurd h (by simp)
  | some p =>
    rw [hres] at h
    dsimp only at h
    by_cases hin : p ∈ selected_paths a s
    · rw [if_pos hin] at h
      exact absurd h (by simp)
    · rw [if_neg hin] at h
      obtain rfl := Option.some.inj h
      exact ⟨rfl, rfl⟩

theorem suggest_missing_file_exact {allFiles : Catalog} {gid : String}
    {ginfo : FileInfo}
    (hpaths : (allFiles.map (fun e => e.2.relative_path)).Nodup)
    (hg : (gid, ginfo) ∈ allFiles) :
    suggest_missing_file allFiles ginfo.relative_path =
      some ⟨gid, 1, "Exact path match found"⟩ := by
  unfold suggest_missing_file
  cases hf : allFiles.find? (fun e => e.2.relative_path == ginfo.relative_path) with
  | none =>
    have h1 := List.find?_eq_none.mp hf (gid, ginfo) hg
    simp at h1
  | some q =>
    have hqmem := List.mem_of_find?_eq_some hf
    have hqp : q.2.relative_path = ginfo.relative_path := by
      have h2 := List.find?_some hf
      simpa using h2
    have hq : q = (gid, ginfo) :=
      List.inj_on_of_nodup_map hpaths hqmem hg hqp
    rw [hq]

theorem missing_filter_eq (allFiles : Catalog) (root selected : List String)
    (rawI rawE : String → List String) {fid : String} {node : DependencyNode}
    (hnode : (fid, node) ∈ analyzedNodes allFiles root selected rawI rawE)
    {imp : String} (himp : imp ∈ node.imports) :
    (find_missing_dependencies allFiles root selected rawI rawE).filter
        (fun md => md.required_by == fid && md.missing_import == imp) =
      (missingFor allFiles root selected fid node imp).toList := by
  obtain ⟨info, hinit, hnodeeq⟩ := mem_analyzedNodes.mp hnode
  have himports : node.imports = extract_imports info.extension (rawI fid) := by
    rw [hnodeeq]
    rfl
  unfold find_missing_dependencies
  rw [filter_flatMap]
  rw [flatMap_eq_single_of_unique_key
    (analyzedNodes allFiles root selected rawI rawE)
    (analyzedNodes_keys_nodup allFiles root selected rawI rawE) hnode _
    (by
      intro e he hne
      rw [List.filter_eq_nil_iff]
      intro md hmd
      obtain ⟨imp', himp', hf⟩ := List.mem_filterMap.mp hmd
      obtain ⟨h1, -⟩ := missingFor_key hf
      simp [h1, hne])]
  dsimp only
  have hcong : ∀ md ∈ List.filterMap (missingFor allFiles root selected fid node)
      node.imports,
      (md.required_by == fid && md.missing_import == imp) =
        (md.missing_import == imp) := by
    intro md hmd
    obtain ⟨imp', himp', hf⟩ := List.mem_filterMap.mp hmd
    rw [(missingFor_key hf).1]
    simp
  rw [List.filter_congr hcong]
  exact filter_key_filterMap (missingFor allFiles root selected fid node)
    MissingDependency.missing_import (fun x b hb => (missingFor_key hb).2)
    node.imports (himports ▸ extract_imports_nodup info.extension (rawI fid))
    imp himp

/-! ## Claim theorems -/

/-- Claim C1 (code bug evidence): at the failing input — catalog containing
only `a.js`, selection `[a]`, `a.js` importing `./nonexistent`, which resolves
to nothing — the code produces NO missing-dependency entry at all, where the
claim (and §4.4 of the spec) requires one entry with confidence 0.0 and reason
"File not found".  The guard `if resolved_path and ...` of line 301 skips
every unresolved import, leaving the code's own "File not found" fallback
unreachable. -/
theorem c1_unresolved_import_produces_no_missing_entry :
    (analyze_dependencies [("a", ⟨["a.js"], ".js"⟩)] [] ["a"]
        (fun f => if f = "a" then ["./nonexistent"] else [])
        (fun _ => [])).missing_dependencies = [] := by
  decide

/-- Claim C3 counterexample: with catalog iteration order
`f1 ↦ foofoo.js`, `f2 ↦ foo.js` and missing path `dir/foo.js`, the catalog
holds an exact filename match (`f2`), yet the produced suggestion is the
earlier substring-only candidate `f1` with confidence 0.5 — the claimed
"never outranked by a substring-only match occurring earlier" is false:
`candidates[0]` mixes the 0.8 and 0.5 tiers in catalog order. -/
theorem c3_counterexample :
    suggest_missing_file
        [("f1", ⟨["foofoo.js"], ".js"⟩), ("f2", ⟨["foo.js"], ".js"⟩)]
        ["dir", "foo.js"] =
      some ⟨"f1", 1 / 2, "Similar filename: foofoo.js"⟩ ∧
    pathName ((⟨["foo.js"], ".js"⟩ : FileInfo).relative_path) =
      pathName ["dir", "foo.js"] ∧
    (1 / 2 : ℚ) ≠ 4 / 5 := by
  refine ⟨rfl, rfl, by norm_num⟩

/-- Claim C4 counterexample: catalog contains `style.js`; a JS file at the
root imports `./style.css`.  The code (suffix REPLACEMENT via `with_suffix`)
resolves it to `style.js`, while the algorithm as claimed (extension APPENDED
to the candidate) resolves nothing. -/
theorem c4_counterexample :
    resolve_import_path [("s", ⟨["style.js"], ".js"⟩)] [] "./style.css" [] ".js" =
      some ["style.js"] ∧
    resolve_import_path_append_claim [("s", ⟨["style.js"], ".js"⟩)] []
        "./style.css" [] ".js" = none := by
  refine ⟨by decide, by decide⟩

/-- Claim C5 counterexample: `a.js` imports `./b` and `./b.css` — two
DISTINCT specifiers that both resolve to `b.js` — so `b` occurs twice in
`a`'s dependencies and `a` twice in `b`'s dependents: the lists are not
duplicate-free. -/
theorem c5_counterexample :
    ((analyze_dependencies [("a", ⟨["a.js"], ".js"⟩), ("b", ⟨["b.js"], ".js"⟩)]
          [] ["a", "b"] (fun f => if f = "a" then ["./b", "./b.css"] else [])
          (fun _ => [])).nodes.lookup "a").map DependencyNode.dependencies =
      some ["b", "b"] ∧
    ((analyze_dependencies [("a", ⟨["a.js"], ".js"⟩), ("b", ⟨["b.js"], ".js"⟩)]
          [] ["a", "b"] (fun f => if f = "a" then ["./b", "./b.css"] else [])
          (fun _ => [])).nodes.lookup "b").map DependencyNode.dependents =
      some ["a", "a"] := by
  refine ⟨by decide, by decide⟩

/-- Claim C8 counterexample: `a.js` contains TWO import statements with the
same out-of-selection specifier `./b`; the result holds exactly ONE
MissingDependency entry for it (imports are deduplicated by
`list(set(...))`), not the claimed two. -/
theorem c8_counterexample :
    (analyze_dependencies [("a", ⟨["a.js"], ".js"⟩), ("b", ⟨["b.js"], ".js"⟩)]
        [] ["a"] (fun f => if f = "a" then ["./b", "./b"] else [])
        (fun _ => [])).missing_dependencies =
      [{ required_by := "a", required_by_path := ["a.js"],
         missing_import := "./b", suggested_file := some "b",
         confidence := 1, reason := "Exact path match found" }] := by
  decide

/-- Claim C9 counterexample: two selected files, `a.js` importing `./b`,
`./b.css` and `./b.x` — three distinct specifiers all resolving to `b.js` —
give 3 dependency entries over 2×1 possible pairs: coupling_score = 150,
outside the claimed [0, 100] range. -/
theorem c9_counterexample :
    (analyze_dependencies [("a", ⟨["a.js"], ".js"⟩), ("b", ⟨["b.js"], ".js"⟩)]
        [] ["a", "b"]
        (fun f => if f = "a" then ["./b", "./b.css", "./b.x"] else [])
        (fun _ => [])).metrics.coupling_score = 150 ∧ (100 : ℚ) < 150 := by
  constructor
  · have hn : analyzedNodes
        [("a", ⟨["a.js"], ".js"⟩), ("b", ⟨["b.js"], ".js"⟩)] [] ["a", "b"]
        (fun f => if f = "a" then ["./b", "./b.css", "./b.x"] else [])
        (fun _ => []) =
        [("a", { file_id := "a", file_path := ["a.js"], file_type := ".js",
                 imports := ["./b", "./b.css", "./b.x"], exports := [],
                 dependencies := ["b", "b", "b"], dependents := [],
                 is_entry_point := true, is_leaf := false }),
         ("b", { file_id := "b", file_path := ["b.js"], file_type := ".js",
                 imports := [], exports := [],
                 dependencies := [], dependents := ["a", "a", "a"],
                 is_entry_point := false, is_leaf := true })] := by decide
    show (calculate_metrics (analyzedNodes
        [("a", ⟨["a.js"], ".js"⟩), ("b", ⟨["b.js"], ".js"⟩)] [] ["a", "b"]
        (fun f => if f = "a" then ["./b", "./b.css", "./b.x"] else [])
        (fun _ => []))).coupling_score = 150
    rw [hn]
    unfold calculate_metrics
    norm_num
    rw [round2_eq_of_mul_hundred 15000 (by norm_num)]
    norm_num
  · norm_num

/-- Claim C6 (confirmed): in every analysis result, `is_entry_point` holds
exactly when the node's final dependents list is empty and `is_leaf` exactly
when its final dependencies list is empty; the flags are those computed at
lines 231-233, after every edge of the selected set has been inserted. -/
theorem c6_entry_leaf_flags (allFiles : Catalog) (root selected : List String)
    (rawI rawE : String → List String) :
    ∀ e ∈ (analyze_dependencies allFiles root selected rawI rawE).nodes,
      (e.2.is_entry_point = true ↔ e.2.dependents = []) ∧
      (e.2.is_leaf = true ↔ e.2.dependencies = []) := by
  intro e he
  obtain ⟨p, _, rfl⟩ := List.mem_map.mp he
  constructor <;> simp [mkNode, List.isEmpty_iff]

/-- Witness for C6 at a concrete input. -/
theorem c6_witness :
    (("a", { file_id := "a", file_path := ["a.js"], file_type := ".js",
             imports := [], exports := [], dependencies := [],
             dependents := [], is_entry_point := true, is_leaf := true
             : DependencyNode }) ∈
        (analyze_dependencies [("a", ⟨["a.js"], ".js"⟩)] [] ["a"]
          (fun _ => []) (fun _ => [])).nodes) ∧
    (((true : Bool) = true ↔ ([] : List String) = []) ∧
      ((true : Bool) = true ↔ ([] : List String) = [])) := by
  refine ⟨by decide, ?_⟩
  exact c6_entry_leaf_flags [("a", ⟨["a.js"], ".js"⟩)] [] ["a"]
    (fun _ => []) (fun _ => [])
    ("a", { file_id := "a", file_path := ["a.js"], file_type := ".js",
            imports := [], exports := [], dependencies := [],
            dependents := [], is_entry_point := true, is_leaf := true })
    (by decide)

/-- Claim C9, amended: coupling_score equals the sum of all nodes' dependency
list lengths divided by total_files × (total_files − 1), × 100, rounded to 2
decimals; it is 0 whenever total_files ≤ 1, and it is nonnegative — but it is
NOT bounded by 100 (see the counterexample): duplicate dependency entries can
push it above 100. -/
theorem c9_coupling_formula_amended (allFiles : Catalog)
    (root selected : List String) (rawI rawE : String → List String) :
    (analyze_dependencies allFiles root selected rawI rawE).metrics.total_files =
      (analyze_dependencies allFiles root selected rawI rawE).nodes.length ∧
    ((analyze_dependencies allFiles root selected rawI rawE).nodes.length ≤ 1 →
      (analyze_dependencies allFiles root selected rawI rawE).metrics.coupling_score = 0) ∧
    (1 < (analyze_dependencies allFiles root selected rawI rawE).nodes.length →
      (analyze_dependencies allFiles root selected rawI rawE).metrics.coupling_score =
        round2
          (((((analyze_dependencies allFiles root selected rawI rawE).nodes.map
                  (fun e => e.2.dependencies.length)).sum : ℕ) : ℚ) /
              (((analyze_dependencies allFiles root selected rawI rawE).nodes.length : ℚ) *
                (((analyze_dependencies allFiles root selected rawI rawE).nodes.length : ℚ) - 1)) *
            100)) ∧
    0 ≤ (analyze_dependencies allFiles root selected rawI rawE).metrics.coupling_score := by
  refine ⟨?_, ?_, ?_, ?_⟩
  · show (calculate_metrics ((analyze_dependencies allFiles root selected rawI rawE).nodes)).total_files =
      ((analyze_dependencies allFiles root selected rawI rawE).nodes).length
    by_cases h : ((analyze_dependencies allFiles root selected rawI rawE).nodes).length = 0
    · simp [calculate_metrics, h]
    · simp [calculate_metrics, h]
  · intro h1
    show (calculate_metrics ((analyze_dependencies allFiles root selected rawI rawE).nodes)).coupling_score = 0
    rcases (by omega :
        ((analyze_dependencies allFiles root selected rawI rawE).nodes).length = 0 ∨
        ((analyze_dependencies allFiles root selected rawI rawE).nodes).length = 1) with h | h
    · simp [calculate_metrics, h]
    · norm_num [calculate_metrics, h, round2_zero]
  · intro h1
    have h0 : ((analyze_dependencies allFiles root selected rawI rawE).nodes).length ≠ 0 := by
      show ¬ _
      omega
    show (calculate_metrics ((analyze_dependencies allFiles root selected rawI rawE).nodes)).coupling_score = _
    unfold calculate_metrics
    rw [if_neg h0]
    show round2 (if 0 < ((analyze_dependencies allFiles root selected rawI rawE).nodes).length *
          (((analyze_dependencies allFiles root selected rawI rawE).nodes).length - 1) then
        (((((analyze_dependencies allFiles root selected rawI rawE).nodes).map
              (fun e => e.2.dependencies.length)).sum : ℕ) : ℚ) /
          (((((analyze_dependencies allFiles root selected rawI rawE).nodes).length *
              (((analyze_dependencies allFiles root selected rawI rawE).nodes).length - 1) : ℕ)) : ℚ) * 100
      else 0) = _
    rw [if_pos (Nat.mul_pos (by omega) (by omega))]
    congr 1
    have hc : ((((analyze_dependencies allFiles root selected rawI rawE).nodes).length *
        (((analyze_dependencies allFiles root selected rawI rawE).nodes).length - 1) : ℕ) : ℚ) =
        (((analyze_dependencies allFiles root selected rawI rawE).nodes).length : ℚ) *
          ((((analyze_dependencies allFiles root selected rawI rawE).nodes).length : ℚ) - 1) := by
      push_cast [Nat.cast_sub (by omega : 1 ≤ ((analyze_dependencies allFiles root selected rawI rawE).nodes).length)]
      ring
    rw [hc]
  · show 0 ≤ (calculate_metrics ((analyze_dependencies allFiles root selected rawI rawE).nodes)).coupling_score
    unfold calculate_metrics
    by_cases h : ((analyze_dependencies allFiles root selected rawI rawE).nodes).length = 0
    · rw [if_pos h]
    · rw [if_neg h]
      show 0 ≤ round2 _
      apply round2_nonneg
      split
      · positivity
      · exact le_refl 0

/-- Witness for C9 (amended) at concrete inputs: the one-file analysis has
coupling 0, and the two-file analysis of the C9 counterexample satisfies the
formula. -/
theorem c9_witness :
    ((analyze_dependencies [("a", ⟨["a.js"], ".js"⟩)] [] ["a"] noRaw
        noRaw).nodes.length ≤ 1 ∧
      (analyze_dependencies [("a", ⟨["a.js"], ".js"⟩)] [] ["a"] noRaw
        noRaw).metrics.coupling_score = 0) ∧
    (1 < (analyze_dependencies abCatalog [] ["a", "b"] importBRaw noRaw).nodes.length ∧
      (analyze_dependencies abCatalog [] ["a", "b"] importBRaw noRaw).metrics.coupling_score =
        round2
          (((((analyze_dependencies abCatalog [] ["a", "b"] importBRaw noRaw).nodes.map
                  (fun e => e.2.dependencies.length)).sum : ℕ) : ℚ) /
              (((analyze_dependencies abCatalog [] ["a", "b"] importBRaw noRaw).nodes.length : ℚ) *
                (((analyze_dependencies abCatalog [] ["a", "b"] importBRaw
                    noRaw).nodes.length : ℚ) - 1)) * 100)) := by
  constructor
  · exact ⟨by decide,
      (c9_coupling_formula_amended [("a", ⟨["a.js"], ".js"⟩)] [] ["a"] noRaw
        noRaw).2.1 (by decide)⟩
  · exact ⟨by decide,
      (c9_coupling_formula_amended abCatalog [] ["a", "b"] importBRaw
        noRaw).2.2.1 (by decide)⟩

/-- Claim C10, amended: completeness_score = selected_count /
(selected_count + missing_count) × 100 rounded to 2 decimals; it is 0 when
selected_count = 0; it is 100.0 when missing_count = 0 AND selected_count > 0;
and when missing_count > 0 the value BEFORE rounding is strictly below 100 —
the rounded score itself can still be 100.0 (see the counterexample). -/
theorem c10_completeness_amended (allFiles : Catalog)
    (root selected : List String) (rawI rawE : String → List String) :
    (analyze_dependencies allFiles root selected rawI rawE).completeness_score =
      calculate_completeness_score selected.length
        (analyze_dependencies allFiles root selected rawI rawE).missing_dependencies.length ∧
    (selected.length = 0 →
      (analyze_dependencies allFiles root selected rawI rawE).completeness_score = 0) ∧
    (0 < selected.length →
      (analyze_dependencies allFiles root selected rawI rawE).missing_dependencies.length = 0 →
      (analyze_dependencies allFiles root selected rawI rawE).completeness_score = 100) ∧
    (0 < selected.length →
      0 < (analyze_dependencies allFiles root selected rawI rawE).missing_dependencies.length →
      (selected.length : ℚ) /
          ((selected.length : ℚ) +
            ((analyze_dependencies allFiles root selected rawI
                rawE).missing_dependencies.length : ℚ)) * 100 < 100) := by
  refine ⟨rfl, ?_, ?_, ?_⟩
  · intro h
    show calculate_completeness_score selected.length
      (find_missing_dependencies allFiles root selected rawI rawE).length = 0
    unfold calculate_completeness_score
    rw [if_pos h]
  · intro h1 h2
    have h2' : (find_missing_dependencies allFiles root selected rawI rawE).length = 0 := h2
    show calculate_completeness_score selected.length
      (find_missing_dependencies allFiles root selected rawI rawE).length = 100
    rw [h2']
    unfold calculate_completeness_score
    rw [if_neg (by omega)]
    have hs : ((selected.length : ℚ)) ≠ 0 := Nat.cast_ne_zero.mpr (by omega)
    rw [round2_eq_of_mul_hundred 10000 (by
      push_cast
      rw [add_zero, div_self hs]
      norm_num)]
    norm_num
  · intro h1 h2
    have hs : (0 : ℚ) < (selected.length : ℚ) := by exact_mod_cast h1
    have hm : (0 : ℚ) <
        ((analyze_dependencies allFiles root selected rawI
            rawE).missing_dependencies.length : ℚ) := by exact_mod_cast h2
    have hd : (0 : ℚ) < (selected.length : ℚ) +
        ((analyze_dependencies allFiles root selected rawI
            rawE).missing_dependencies.length : ℚ) := by linarith
    rw [div_mul_eq_mul_div, div_lt_iff₀ hd]
    linarith

/-- Witness for C10 (amended) at concrete inputs: a one-file selection with no
missing imports scores 100; with one missing import the unrounded ratio is
below 100. -/
theorem c10_witness :
    (analyze_dependencies [("a", ⟨["a.js"], ".js"⟩)] [] ["a"] noRaw
        noRaw).completeness_score = 100 ∧
    ((["a"] : List String).length : ℚ) /
        (((["a"] : List String).length : ℚ) +
          ((analyze_dependencies abCatalog [] ["a"] importBRaw
              noRaw).missing_dependencies.length : ℚ)) * 100 < 100 := by
  constructor
  · exact (c10_completeness_amended [("a", ⟨["a.js"], ".js"⟩)] [] ["a"] noRaw
      noRaw).2.2.1 (by decide) (by decide)
  · exact (c10_completeness_amended abCatalog [] ["a"] importBRaw
      noRaw).2.2.2 (by decide) (by decide)

/-- Claim C10 counterexample: with a raw selection list of length 100000 (one
analyzable file plus 99999 copies of an unknown id, all counted by
`len(selected_files)`) and exactly one missing dependency, the completeness
score is round(100 × 100000/100001, 2) = 100.0 — NOT strictly less than 100,
although missing_count = 1 > 0. -/
theorem c10_counterexample :
    bigSelection.length = 100000 ∧
    (analyze_dependencies abCatalog [] bigSelection importBRaw
        noRaw).missing_dependencies.length = 1 ∧
    (analyze_dependencies abCatalog [] bigSelection importBRaw
        noRaw).completeness_score = 100 := by
  have hne : ("a" : String) ∉ List.replicate 99999 "zz" := by
    rw [List.mem_replicate]
    exact fun h => absurd h.2 (by decide)
  have hd : bigSelection.dedup = ["a", "zz"] := by
    unfold bigSelection
    rw [List.dedup_cons_of_not_mem hne, dedup_replicate 99999 (by norm_num) "zz"]
  have hinit : initialNodes abCatalog bigSelection = [("a", ⟨["a.js"], ".js"⟩)] := by
    unfold initialNodes
    rw [hd]
    decide
  have hpairs : selectedPathPairs abCatalog bigSelection = [(["a.js"], "a")] := by
    unfold selectedPathPairs bigSelection
    exact filterMap_cons_replicate _ 99999 "a" "zz" _ (by decide) (by decide)
  have hselpaths : selected_paths abCatalog bigSelection = [["a.js"]] := by
    unfold selected_paths bigSelection
    exact filterMap_cons_replicate _ 99999 "a" "zz" _ (by decide) (by decide)
  have het : edgeTarget abCatalog [] bigSelection "a" ⟨["a.js"], ".js"⟩ "./b" = none := by
    simp only [edgeTarget, pathToId, hpairs]
    decide
  have hdeps : depsOf abCatalog [] bigSelection importBRaw "a" ⟨["a.js"], ".js"⟩ = [] := by
    show (extract_imports (FileInfo.mk ["a.js"] ".js").extension (importBRaw "a")).filterMap
      (edgeTarget abCatalog [] bigSelection "a" ⟨["a.js"], ".js"⟩) = []
    rw [show extract_imports (FileInfo.mk ["a.js"] ".js").extension (importBRaw "a") =
      ["./b"] from by decide]
    rw [List.filterMap_cons_none het, List.filterMap_nil]
  have hdpt : dependentsOf abCatalog [] bigSelection importBRaw "a" = [] := by
    unfold dependentsOf
    rw [hinit]
    simp only [List.flatMap_cons, List.flatMap_nil, hdeps, List.filter_nil,
      List.map_nil, List.append_nil]
  have hannodes : analyzedNodes abCatalog [] bigSelection importBRaw noRaw =
      [("a", { file_id := "a", file_path := ["a.js"], file_type := ".js",
               imports := ["./b"], exports := [], dependencies := [],
               dependents := [], is_entry_point := true, is_leaf := true })] := by
    unfold analyzedNodes
    rw [hinit]
    simp only [List.map_cons, List.map_nil, mkNode, hdeps, hdpt]
    decide
  have hout : (["b.js"] : List String) ∉ selected_paths abCatalog bigSelection := by
    rw [hselpaths]
    decide
  have hmf : missingFor abCatalog [] bigSelection "a"
      { file_id := "a", file_path := ["a.js"], file_type := ".js",
        imports := ["./b"], exports := [], dependencies := [],
        dependents := [], is_entry_point := true, is_leaf := true } "./b" =
      some { required_by := "a", required_by_path := ["a.js"],
             missing_import := "./b", suggested_file := some "b",
             confidence := 1, reason := "Exact path match found" } := by
    rw [missingFor_eq_of_out (by decide) hout]
    rfl
  have hmiss : find_missing_dependencies abCatalog [] bigSelection importBRaw noRaw =
      [{ required_by := "a", required_by_path := ["a.js"], missing_import := "./b",
         suggested_file := some "b", confidence := 1,
         reason := "Exact path match found" }] := by
    unfold find_missing_dependencies
    rw [hannodes]
    simp only [List.flatMap_cons, List.flatMap_nil, List.append_nil]
    rw [List.filterMap_cons_some hmf, List.filterMap_nil]
  have hlen : bigSelection.length = 100000 := by
    show ("a" :: List.replicate 99999 "zz").length = 100000
    rw [List.length_cons, List.length_replicate]
  refine ⟨hlen, ?_, ?_⟩
  · simp only [analyze_dependencies]
    rw [hmiss]
    rfl
  · simp only [analyze_dependencies]
    rw [hmiss, hlen]
    show calculate_completeness_score 100000 1 = 100
    unfold calculate_completeness_score
    rw [if_neg (by norm_num)]
    have harg : (((100000 : ℕ) : ℚ) / (((100000 : ℕ) : ℚ) + ((1 : ℕ) : ℚ)) * 100) * 100 =
        1000000000 / 100001 := by
      push_cast
      rw [div_mul_eq_mul_div, div_mul_eq_mul_div]
      norm_num
    have hfloor : ⌊(((100000 : ℕ) : ℚ) / (((100000 : ℕ) : ℚ) + ((1 : ℕ) : ℚ)) * 100) * 100⌋ =
        9999 := by
      rw [harg, Int.floor_eq_iff]
      constructor
      · rw [le_div_iff₀ (by norm_num)]
        norm_num
      · rw [div_lt_iff₀ (by norm_num)]
        norm_num
    unfold round2
    rw [roundHalfEven_eq_add_one hfloor (by
      rw [harg, lt_sub_iff_add_lt, lt_div_iff₀ (by norm_num)]
      norm_num)]
    norm_num

/-- Claim C2 (confirmed): an import that resolves, against the full catalog,
to the relative path of a catalog file `gid` that is outside the selected set
yields exactly one MissingDependency for that (file, import): suggested_file =
gid, confidence 1.0, reason "Exact path match found"; and no dependency edge
to `gid` is added to any node.  Hypotheses `hids`/`hpaths` state that the
catalog is a genuine dict over `FileRecord`s: unique ids and unique relative
paths. -/
theorem c2_out_of_selection_exact_match (allFiles : Catalog)
    (root selected : List String) (rawI rawE : String → List String)
    (hids : (allFiles.map Prod.fst).Nodup)
    (hpaths : (allFiles.map (fun e => e.2.relative_path)).Nodup)
    (fid : String) (node : DependencyNode)
    (hnode : (fid, node) ∈ (analyze_dependencies allFiles root selected rawI rawE).nodes)
    (imp : String) (himp : imp ∈ node.imports)
    (gid : String) (ginfo : FileInfo) (hg : (gid, ginfo) ∈ allFiles)
    (hres : resolve_import_path allFiles root imp node.file_path.dropLast
      node.file_type = some ginfo.relative_path)
    (hout : ginfo.relative_path ∉ selected_paths allFiles selected) :
    ((analyze_dependencies allFiles root selected rawI rawE).missing_dependencies.filter
        (fun md => md.required_by == fid && md.missing_import == imp)) =
      [{ required_by := fid, required_by_path := node.file_path,
         missing_import := imp, suggested_file := some gid, confidence := 1,
         reason := "Exact path match found" }] ∧
    ∀ e ∈ (analyze_dependencies allFiles root selected rawI rawE).nodes,
      gid ∉ e.2.dependencies := by
  constructor
  · show (find_missing_dependencies allFiles root selected rawI rawE).filter
      (fun md => md.required_by == fid && md.missing_import == imp) = _
    rw [missing_filter_eq allFiles root selected rawI rawE hnode himp]
    rw [missingFor_eq_of_out hres hout,
      suggest_missing_file_exact hpaths hg]
    rfl
  · rintro ⟨e1, e2⟩ he hdep
    obtain ⟨info', hinit', hn⟩ := mem_analyzedNodes.mp he
    have hdeps' : e2.dependencies = depsOf allFiles root selected rawI e1 info' := by
      rw [hn]
      rfl
    rw [hdeps'] at hdep
    obtain ⟨imp', himp', het⟩ := List.mem_filterMap.mp hdep
    obtain ⟨hne, p, hres2, hpt⟩ := edgeTarget_eq_some het
    obtain ⟨hgin, info'', hlook, hpatheq⟩ := pathToId_eq_some hpt
    obtain ⟨l1, l2, hsplit, -⟩ := List.lookup_eq_some_iff.mp hlook
    have hmem2 : (gid, info'') ∈ allFiles := by
      rw [hsplit]
      exact List.mem_append.mpr (Or.inr (List.mem_cons_self _ _))
    have heq2 : (gid, info'') = (gid, ginfo) :=
      List.inj_on_of_nodup_map hids hmem2 hg rfl
    injection heq2 with h1 h2
    subst h2
    exact hout (mem_selected_paths_of hgin hlook)

/-- Witness for C2 at a concrete input: `a.js` (selected) imports `./b`, which
resolves to the unselected catalog file `b.js`. -/
theorem c2_witness :
    ((analyze_dependencies abCatalog [] ["a"] importBRaw noRaw).missing_dependencies.filter
        (fun md => md.required_by == "a" && md.missing_import == "./b")) =
      [{ required_by := "a", required_by_path := ["a.js"],
         missing_import := "./b", suggested_file := some "b", confidence := 1,
         reason := "Exact path match found" }] ∧
    ∀ e ∈ (analyze_dependencies abCatalog [] ["a"] importBRaw noRaw).nodes,
      "b" ∉ e.2.dependencies := by
  have h := c2_out_of_selection_exact_match abCatalog [] ["a"] importBRaw noRaw
    (by decide) (by decide) "a"
    { file_id := "a", file_path := ["a.js"], file_type := ".js",
      imports := ["./b"], exports := [], dependencies := [],
      dependents := [], is_entry_point := true, is_leaf := true }
    (by decide) "./b" (by decide) "b" ⟨["b.js"], ".js"⟩ (by decide)
    (by decide) (by decide)
  exact h

/-- Claim C8, amended: the per-file import list is deduplicated
(`list(set(...))`), so a file containing two import statements with the same
out-of-selection specifier yields exactly ONE MissingDependency entry for that
(file, specifier) pair, not two; the specifier occurs exactly once in the
node's import list.  (An unresolved specifier yields no entry at all — claim
C1.) -/
theorem c8_dedup_missing_amended (allFiles : Catalog)
    (root selected : List String) (rawI rawE : String → List String)
    (fid : String) (node : DependencyNode)
    (hnode : (fid, node) ∈ (analyze_dependencies allFiles root selected rawI rawE).nodes)
    (imp : String) (himp : imp ∈ node.imports) (p : List String)
    (hres : resolve_import_path allFiles root imp node.file_path.dropLast
      node.file_type = some p)
    (hout : p ∉ selected_paths allFiles selected) :
    node.imports.count imp = 1 ∧
    ((analyze_dependencies allFiles root selected rawI rawE).missing_dependencies.filter
        (fun md => md.required_by == fid && md.missing_import == imp)).length = 1 := by
  obtain ⟨info, hinit, hnodeeq⟩ := mem_analyzedNodes.mp hnode
  have himports : node.imports = extract_imports info.extension (rawI fid) := by
    rw [hnodeeq]
    rfl
  constructor
  · exact List.count_eq_one_of_mem
      (himports ▸ extract_imports_nodup info.extension (rawI fid)) himp
  · have heq := missing_filter_eq allFiles root selected rawI rawE hnode himp
    rw [show (analyze_dependencies allFiles root selected rawI rawE).missing_dependencies =
      find_missing_dependencies allFiles root selected rawI rawE from rfl, heq,
      missingFor_eq_of_out hres hout]
    rfl

/-- Witness for C8 (amended) at a concrete input: `a.js` contains the
out-of-selection import `./b` written twice. -/
theorem c8_witness :
    ({ file_id := "a", file_path := ["a.js"], file_type := ".js",
       imports := ["./b"], exports := [], dependencies := [],
       dependents := [], is_entry_point := true, is_leaf := true
       : DependencyNode }).imports.count "./b" = 1 ∧
    ((analyze_dependencies abCatalog [] ["a"]
        (fun f => if f = "a" then ["./b", "./b"] else []) noRaw).missing_dependencies.filter
        (fun md => md.required_by == "a" && md.missing_import == "./b")).length = 1 := by
  exact c8_dedup_missing_amended abCatalog [] ["a"]
    (fun f => if f = "a" then ["./b", "./b"] else []) noRaw "a"
    { file_id := "a", file_path := ["a.js"], file_type := ".js",
      imports := ["./b"], exports := [], dependencies := [],
      dependents := [], is_entry_point := true, is_leaf := true }
    (by decide) "./b" (by decide) ["b.js"] (by decide) (by decide)

/-- Claim C5, amended: a node's import list is duplicate-free
(`list(set(...))`), a node's own id has multiplicity 0 in its dependencies
(self-edges never occur), and the multiplicity of `b` in a node's dependencies
equals the number of distinct import specifiers of that node whose edge target
is `b` — so one specifier contributes exactly one edge, but several DISTINCT
specifiers resolving to the same file each contribute, and the dependency and
dependent lists are NOT duplicate-free (see the counterexample); symmetrically,
`fid` occurs in `g`'s dependents exactly as often as `g` occurs in `fid`'s
dependencies. -/
theorem c5_edge_multiplicity_amended (allFiles : Catalog)
    (root selected : List String) (rawI rawE : String → List String)
    (fid : String) (node : DependencyNode)
    (hmem : (fid, node) ∈ (analyze_dependencies allFiles root selected rawI rawE).nodes) :
    node.imports.Nodup ∧
    (∀ b : String,
        node.dependencies.count b =
          node.imports.countP
            (fun imp => edgeTarget allFiles root selected fid
              (⟨node.file_path, node.file_type⟩ : FileInfo) imp == some b)) ∧
    node.dependencies.count fid = 0 ∧
    (∀ g gnode,
        (g, gnode) ∈ (analyze_dependencies allFiles root selected rawI rawE).nodes →
          gnode.dependents.count fid = node.dependencies.count g) := by
  have hmem' : (fid, node) ∈ analyzedNodes allFiles root selected rawI rawE := hmem
  obtain ⟨info, hinit, hnodeeq⟩ := mem_analyzedNodes.mp hmem'
  have hdeps : node.dependencies = depsOf allFiles root selected rawI fid info := by
    rw [hnodeeq]
    rfl
  have himports : node.imports = extract_imports info.extension (rawI fid) := by
    rw [hnodeeq]
    rfl
  have hpath : node.file_path = info.relative_path := by
    rw [hnodeeq]
    rfl
  have htype : node.file_type = info.extension := by
    rw [hnodeeq]
    rfl
  have hinfo : (⟨node.file_path, node.file_type⟩ : FileInfo) = info := by
    rw [hpath, htype]
  refine ⟨himports ▸ extract_imports_nodup info.extension (rawI fid), ?_, ?_, ?_⟩
  · intro b
    rw [hdeps, himports, hinfo]
    exact count_filterMap (edgeTarget allFiles root selected fid info)
      (extract_imports info.extension (rawI fid)) b
  · rw [hdeps]
    show ((extract_imports info.extension (rawI fid)).filterMap
      (edgeTarget allFiles root selected fid info)).count fid = 0
    rw [count_filterMap]
    refine List.countP_eq_zero.mpr ?_
    intro imp _
    simp only [beq_iff_eq]
    exact edgeTarget_ne_self
  · intro g gnode hgmem
    have hgmem' : (g, gnode) ∈ analyzedNodes allFiles root selected rawI rawE := hgmem
    obtain ⟨ginfo, hginit, hgeq⟩ := mem_analyzedNodes.mp hgmem'
    have hgdep : gnode.dependents = dependentsOf allFiles root selected rawI g := by
      rw [hgeq]
      rfl
    have h1 : (dependentsOf allFiles root selected rawI g).count fid =
        ((initialNodes allFiles selected).map
          (fun e => (((depsOf allFiles root selected rawI e.1 e.2).filter
              (fun d => d == g)).map (fun _ => e.1)).count fid)).sum := by
      unfold dependentsOf
      exact count_flatMap _ _ _
    have h2 := sum_eq_single_of_unique_key (initialNodes allFiles selected)
      (initialNodes_keys_nodup allFiles selected) hinit
      (fun e => (((depsOf allFiles root selected rawI e.1 e.2).filter
          (fun d => d == g)).map (fun _ => e.1)).count fid)
      (fun p _ hne => by
        show (((depsOf allFiles root selected rawI p.1 p.2).filter
            (fun d => d == g)).map (fun _ => p.1)).count fid = 0
        rw [List.map_const', List.count_replicate,
          if_neg (by simp [hne] : ¬((p.1 == fid) = true))])
    rw [hgdep, h1, h2]
    show (((depsOf allFiles root selected rawI fid info).filter
        (fun d => d == g)).map (fun _ => fid)).count fid =
      node.dependencies.count g
    rw [List.map_const', List.count_replicate, if_pos (beq_self_eq_true fid),
      hdeps, List.count_eq_countP, List.countP_eq_length_filter]

/-- Witness for C5 (amended) at a concrete input: `a.js` imports `./b` and
`./b.css`, two distinct specifiers both resolving to the selected file
`b.js`. -/
theorem c5_witness :
    ({ file_id := "a", file_path := ["a.js"], file_type := ".js",
       imports := ["./b", "./b.css"], exports := [],
       dependencies := ["b", "b"], dependents := [], is_entry_point := true,
       is_leaf := false : DependencyNode }).dependencies.count "a" = 0 ∧
    ({ file_id := "b", file_path := ["b.js"], file_type := ".js",
       imports := [], exports := [], dependencies := [],
       dependents := ["a", "a"], is_entry_point := false, is_leaf := true
       : DependencyNode }).dependents.count "a" =
      ({ file_id := "a", file_path := ["a.js"], file_type := ".js",
         imports := ["./b", "./b.css"], exports := [],
         dependencies := ["b", "b"], dependents := [], is_entry_point := true,
         is_leaf := false : DependencyNode }).dependencies.count "b" := by
  have h := c5_edge_multiplicity_amended abCatalog [] ["a", "b"]
    (fun f => if f = "a" then ["./b", "./b.css"] else []) noRaw "a"
    { file_id := "a", file_path := ["a.js"], file_type := ".js",
      imports := ["./b", "./b.css"], exports := [],
      dependencies := ["b", "b"], dependents := [], is_entry_point := true,
      is_leaf := false }
    (by decide)
  exact ⟨h.2.2.1, h.2.2.2 "b"
    { file_id := "b", file_path := ["b.js"], file_type := ".js",
      imports := [], exports := [], dependencies := [],
      dependents := ["a", "a"], is_entry_point := false, is_leaf := true }
    (by decide)⟩

theorem head?_filterMap_eq_find?_bind {α β : Type} (f : α → Option β)
    (l : List α) :
    (l.filterMap f).head? = (l.find? (fun x => (f x).isSome)).bind f := by
  induction l with
  | nil => rfl
  | cons a t ih =>
    cases h : f a with
    | none =>
      rw [List.filterMap_cons_none h, List.find?_cons_of_neg _ (by simp [h]), ih]
    | some b =>
      rw [List.filterMap_cons_some h, List.find?_cons_of_pos _ (by simp [h]),
        Option.some_bind, h]
      rfl

/-- Claim C4, amended: the resolver equals its declarative restatement —
a non-relative specifier is unresolved immediately; otherwise every
direct-file candidate (the final segment's suffix REPLACED by each family
extension via `with_suffix`, in extension order — not the extension appended,
see the counterexample) is tried before every directory-index candidate, and
the first candidate matching a catalog entry by root-relative path wins, so a
direct file always beats a same-named directory index, and if nothing matches
the resolver returns unresolved. -/
theorem c4_resolver_characterization (allFiles : Catalog) (root : List String)
    (importPath : String) (currentDir : List String) (fileType : String) :
    resolve_import_path allFiles root importPath currentDir fileType =
      resolve_import_path_spec allFiles root importPath currentDir fileType := by
  have h1 : (extsFor fileType).findSome? (fun ext =>
      checkCandidate allFiles root
        (withSuffixSegs (resolvedAbs root currentDir importPath) ext)) =
      (((extsFor fileType).map
          (withSuffixSegs (resolvedAbs root currentDir importPath))).filterMap
        (checkCandidate allFiles root)).head? := by
    rw [List.filterMap_map]
    exact findSome?_eq_head?_filterMap _ _
  have h2 : (extsFor fileType).findSome? (fun ext =>
      checkCandidate allFiles root
        (resolvedAbs root currentDir importPath ++ ["index" ++ ext])) =
      (((extsFor fileType).map (fun ext =>
          resolvedAbs root currentDir importPath ++ ["index" ++ ext])).filterMap
        (checkCandidate allFiles root)).head? := by
    rw [List.filterMap_map]
    exact findSome?_eq_head?_filterMap _ _
  unfold resolve_import_path resolve_import_path_spec
  by_cases h : (!(strStartsWith importPath ".")) = true
  · rw [if_pos h, if_pos h]
  · rw [if_neg h, if_neg h, List.filterMap_append, List.head?_append, ← h1, ← h2]
    cases (extsFor fileType).findSome? (fun ext =>
        checkCandidate allFiles root
          (withSuffixSegs (resolvedAbs root currentDir importPath) ext)) with
    | some rel => rfl
    | none => rfl

/-- Claim C3, amended: if some catalog entry's relative path equals the
missing path exactly, the first such entry (catalog iteration order) is
suggested with confidence 1.0; otherwise ONE COMBINED pass over the catalog
collects filename-equality candidates (0.8) and substring candidates (0.5)
together, and the first entry matching EITHER tier — in catalog iteration
order, regardless of tier — wins: an earlier substring-only match outranks a
later exact-filename match (see the counterexample), and if no entry matches
at all there is no suggestion. -/
theorem c3_suggestion_policy_amended (allFiles : Catalog)
    (missingPath : List String) :
    (∀ e, allFiles.find? (fun q => q.2.relative_path == missingPath) = some e →
      suggest_missing_file allFiles missingPath =
        some ⟨e.1, 1, "Exact path match found"⟩) ∧
    (allFiles.find? (fun q => q.2.relative_path == missingPath) = none →
      suggest_missing_file allFiles missingPath =
        (allFiles.find? (fun q =>
          (if pathName q.2.relative_path = pathName missingPath then
              some (⟨q.1, 4 / 5,
                "Filename matches: " ++ pathString q.2.relative_path⟩ : Suggestion)
            else if isSubstring (pathName missingPath) (pathName q.2.relative_path) ||
                isSubstring (pathName q.2.relative_path) (pathName missingPath) then
              some ⟨q.1, 1 / 2,
                "Similar filename: " ++ pathString q.2.relative_path⟩
            else none).isSome)).bind (fun q =>
          if pathName q.2.relative_path = pathName missingPath then
            some ⟨q.1, 4 / 5,
              "Filename matches: " ++ pathString q.2.relative_path⟩
          else if isSubstring (pathName missingPath) (pathName q.2.relative_path) ||
              isSubstring (pathName q.2.relative_path) (pathName missingPath) then
            some ⟨q.1, 1 / 2,
              "Similar filename: " ++ pathString q.2.relative_path⟩
          else none)) := by
  constructor
  · intro e hf
    unfold suggest_missing_file
    rw [hf]
  · intro hf
    unfold suggest_missing_file
    rw [hf]
    exact head?_filterMap_eq_find?_bind _ _

/-- Witness for C3 (amended) at concrete inputs: a one-entry catalog with an
exact path match, and the two-entry catalog of the counterexample where the
earlier substring-only entry wins the combined pass. -/
theorem c3_witness :
    (([("f2", ⟨["foo.js"], ".js"⟩)] : Catalog).find?
        (fun q => q.2.relative_path == ["foo.js"]) =
          some ("f2", ⟨["foo.js"], ".js"⟩) ∧
      suggest_missing_file [("f2", ⟨["foo.js"], ".js"⟩)] ["foo.js"] =
        some ⟨"f2", 1, "Exact path match found"⟩) ∧
    (([("f1", ⟨["foofoo.js"], ".js"⟩), ("f2", ⟨["foo.js"], ".js"⟩)] : Catalog).find?
        (fun q => q.2.relative_path == ["dir", "foo.js"]) = none ∧
      suggest_missing_file
          [("f1", ⟨["foofoo.js"], ".js"⟩), ("f2", ⟨["foo.js"], ".js"⟩)]
          ["dir", "foo.js"] =
        (([("f1", ⟨["foofoo.js"], ".js"⟩), ("f2", ⟨["foo.js"], ".js"⟩)] : Catalog).find?
            (fun q =>
          (if pathName q.2.relative_path = pathName ["dir", "foo.js"] then
              some (⟨q.1, 4 / 5,
                "Filename matches: " ++ pathString q.2.relative_path⟩ : Suggestion)
            else if isSubstring (pathName ["dir", "foo.js"]) (pathName q.2.relative_path) ||
                isSubstring (pathName q.2.relative_path) (pathName ["dir", "foo.js"]) then
              some ⟨q.1, 1 / 2,
                "Similar filename: " ++ pathString q.2.relative_path⟩
            else none).isSome)).bind (fun q =>
          if pathName q.2.relative_path = pathName ["dir", "foo.js"] then
            some ⟨q.1, 4 / 5,
              "Filename matches: " ++ pathString q.2.relative_path⟩
          else if isSubstring (pathName ["dir", "foo.js"]) (pathName q.2.relative_path) ||
              isSubstring (pathName q.2.relative_path) (pathName ["dir", "foo.js"]) then
            some ⟨q.1, 1 / 2,
              "Similar filename: " ++ pathString q.2.relative_path⟩
          else none)) := by
  refine ⟨⟨by decide, ?_⟩, ⟨by decide, ?_⟩⟩
  · exact (c3_suggestion_policy_amended [("f2", ⟨["foo.js"], ".js"⟩)]
      ["foo.js"]).1 ("f2", ⟨["foo.js"], ".js"⟩) (by decide)
  · exact (c3_suggestion_policy_amended
      [("f1", ⟨["foofoo.js"], ".js"⟩), ("f2", ⟨["foo.js"], ".js"⟩)]
      ["dir", "foo.js"]).2 (by decide)

theorem isCycleOf_rotate_one (R : String → String → Prop) (c : List String)
    (h : IsCycleOf R c) : IsCycleOf R (c.rotate 1) := by
  obtain ⟨hne, hnd, hch, hcl⟩ := h
  cases c with
  | nil => exact absurd rfl hne
  | cons a t =>
    have hrot : (a :: t).rotate 1 = t ++ [a] := by
      rw [List.rotate_cons_succ, List.rotate_zero]
    rw [hrot]
    refine ⟨by simp, (List.perm_append_singleton a t).nodup_iff.mpr hnd, ?_, ?_⟩
    · cases t with
      | nil => exact List.chain'_singleton a
      | cons b t' =>
        rw [List.chain'_cons] at hch
        refine List.chain'_append.mpr ⟨hch.2, List.chain'_singleton a, ?_⟩
        intro x hx y hy
        have hy' : a = y := by simpa using hy
        subst hy'
        have hxl : (b :: t').getLast? = some x := hx
        have hl2 : (a :: b :: t').getLast? = some x := by
          rw [List.getLast?_cons_cons, hxl]
        have h2 : ((a :: b :: t').getLast?).getD "" = x := by rw [hl2]; rfl
        rw [← h2]
        exact hcl
    · cases t with
      | nil => exact hcl
      | cons b t' =>
        have hlast : ((b :: t') ++ [a]).getLast? = some a := List.getLast?_concat _
        have h1 : (((b :: t') ++ [a]).getLast?).getD "" = a := by rw [hlast]; rfl
        have h2 : (((b :: t') ++ [a]).head?).getD "" = b := rfl
        rw [h1, h2]
        exact (List.chain'_cons.mp hch).1

theorem isCycleOf_rotate (R : String → String → Prop) (c : List String)
    (h : IsCycleOf R c) : ∀ n, IsCycleOf R (c.rotate n) := by
  intro n
  induction n with
  | zero => rw [List.rotate_zero]; exact h
  | succ k ih =>
    have h2 := isCycleOf_rotate_one R (c.rotate k) ih
    rwa [List.rotate_rotate] at h2

theorem isCycleOf_congr {R S : String → String → Prop}
    (hRS : ∀ a b, R a b ↔ S a b) (c : List String) :
    IsCycleOf R c ↔ IsCycleOf S c := by
  unfold IsCycleOf
  constructor
  · rintro ⟨h1, h2, h3, h4⟩
    exact ⟨h1, h2, h3.imp (fun a b hab => (hRS a b).mp hab), (hRS _ _).mp h4⟩
  · rintro ⟨h1, h2, h3, h4⟩
    exact ⟨h1, h2, h3.imp (fun a b hab => (hRS a b).mpr hab), (hRS _ _).mpr h4⟩

theorem chain'_closing_mem_source (R : String → String → Prop) :
    ∀ (c : List String), List.Chain' R c →
      (∀ z, c.getLast? = some z → ∃ y, R z y) →
      ∀ x ∈ c, ∃ y, R x y := by
  intro c
  induction c with
  | nil => intro _ _ x hx; cases hx
  | cons a t ih =>
    intro hch hlast x hx
    cases t with
    | nil =>
      rcases List.mem_singleton.mp hx with rfl
      exact hlast x rfl
    | cons b t' =>
      rcases List.mem_cons.mp hx with rfl | hx'
      · exact ⟨b, (List.chain'_cons.mp hch).1⟩
      · exact ih (List.chain'_cons.mp hch).2
          (fun z hz => hlast z (by rw [List.getLast?_cons_cons]; exact hz)) x hx'

theorem isCycleOf_mem_source {R : String → String → Prop} {c : List String}
    (h : IsCycleOf R c) : ∀ x ∈ c, ∃ y, R x y := by
  obtain ⟨hne, -, hch, hcl⟩ := h
  refine chain'_closing_mem_source R c hch ?_
  intro z hz
  refine ⟨(c.head?).getD "", ?_⟩
  have h2 : (c.getLast?).getD "" = z := by rw [hz]; rfl
  rw [← h2]
  exact hcl

theorem mem_cycle_pool {N : List String} (hN : N.Nodup) {c : List String}
    (hnd : c.Nodup) (hsub : ∀ x ∈ c, x ∈ N) :
    c ∈ N.sublists.flatMap List.permutations' := by
  rw [List.mem_flatMap]
  refine ⟨N.filter (fun x => decide (x ∈ c)),
    List.mem_sublists.mpr (List.filter_sublist N), ?_⟩
  rw [List.mem_permutations']
  refine (List.perm_ext_iff_of_nodup hnd (hN.filter _)).mpr ?_
  intro a
  rw [List.mem_filter]
  constructor
  · intro ha
    exact ⟨hsub a ha, by simpa using ha⟩
  · rintro ⟨-, ha⟩
    simpa using ha

theorem canonicalHead_eq_true {N : List String} {m : String} {t : List String}
    (hmin : ∀ y ∈ m :: t, N.indexOf m ≤ N.indexOf y) :
    canonicalHead N (m :: t) = true := by
  unfold canonicalHead
  rw [List.all_eq_true]
  intro y hy
  exact decide_eq_true (hmin y hy)

theorem canonicalHead_min {N : List String} {c : List String}
    (h : canonicalHead N c = true) :
    ∃ m t, c = m :: t ∧ ∀ y ∈ c, N.indexOf m ≤ N.indexOf y := by
  cases c with
  | nil => exact absurd h (by simp [canonicalHead])
  | cons m t =>
    refine ⟨m, t, rfl, ?_⟩
    intro y hy
    exact of_decide_eq_true (List.all_eq_true.mp h y hy)

theorem mem_simple_cycles {N : List String} {E : List (String × String)}
    {c : List String} :
    c ∈ simple_cycles N E ↔
      c ∈ N.sublists.flatMap List.permutations' ∧
        IsCycleOf (fun a b => (a, b) ∈ E) c ∧ canonicalHead N c = true := by
  unfold simple_cycles
  rw [List.mem_filter]
  constructor
  · rintro ⟨hp, hb⟩
    rw [Bool.and_eq_true] at hb
    exact ⟨hp, of_decide_eq_true hb.1, hb.2⟩
  · rintro ⟨hp, hc, hh⟩
    exact ⟨hp, by rw [Bool.and_eq_true]; exact ⟨decide_eq_true hc, hh⟩⟩

theorem pool_nodup_subset {N : List String} (hN : N.Nodup) {c : List String}
    (h : c ∈ N.sublists.flatMap List.permutations') :
    c.Nodup ∧ ∀ x ∈ c, x ∈ N := by
  rw [List.mem_flatMap] at h
  obtain ⟨s, hs, hperm⟩ := h
  rw [List.mem_sublists] at hs
  rw [List.mem_permutations'] at hperm
  constructor
  · exact hperm.nodup_iff.mpr (hs.nodup hN)
  · intro x hx
    exact hs.subset (hperm.subset hx)

theorem simple_cycles_sound {N : List String} {E : List (String × String)}
    {c : List String} (h : c ∈ simple_cycles N E) :
    IsCycleOf (fun a b => (a, b) ∈ E) c :=
  (mem_simple_cycles.mp h).2.1

theorem simple_cycles_complete {N : List String} (hN : N.Nodup)
    {E : List (String × String)} {c : List String}
    (hc : IsCycleOf (fun a b => (a, b) ∈ E) c) (hsub : ∀ x ∈ c, x ∈ N) :
    ∃ c', c' ∈ simple_cycles N E ∧ c.IsRotated c' := by
  have hne : c ≠ [] := hc.1
  have hnd : c.Nodup := hc.2.1
  cases hm : c.argmin (fun y => N.indexOf y) with
  | none => exact absurd (List.argmin_eq_none.mp hm) hne
  | some m =>
    have hmmem : m ∈ c := List.argmin_mem hm
    have hlt : c.indexOf m < c.length := List.indexOf_lt_length.mpr hmmem
    refine ⟨c.rotate (c.indexOf m), ?_, ⟨c.indexOf m, rfl⟩⟩
    have hcyc' := isCycleOf_rotate _ c hc (c.indexOf m)
    have hperm : List.Perm (c.rotate (c.indexOf m)) c := List.rotate_perm c (c.indexOf m)
    have hnd' : (c.rotate (c.indexOf m)).Nodup := hperm.nodup_iff.mpr hnd
    have hsub' : ∀ x ∈ c.rotate (c.indexOf m), x ∈ N :=
      fun x hx => hsub x (hperm.subset hx)
    have hhead : (c.rotate (c.indexOf m)).head? = some m := by
      rw [List.head?_rotate hlt]
      exact List.getElem?_indexOf hmmem
    rw [mem_simple_cycles]
    refine ⟨mem_cycle_pool hN hnd' hsub', hcyc', ?_⟩
    cases hr : c.rotate (c.indexOf m) with
    | nil => rw [hr] at hhead; exact absurd hhead (by simp)
    | cons m' t =>
      have hm' : m' = m := by
        rw [hr] at hhead
        exact Option.some.inj hhead
      subst hm'
      refine canonicalHead_eq_true ?_
      intro y hy
      rw [← hr] at hy
      exact List.le_of_mem_argmin (hperm.subset hy) hm

theorem simple_cycles_unique {N : List String} (hN : N.Nodup)
    {E : List (String × String)} {c1 c2 : List String}
    (h1 : c1 ∈ simple_cycles N E) (h2 : c2 ∈ simple_cycles N E)
    (hr : c1.IsRotated c2) : c1 = c2 := by
  rw [mem_simple_cycles] at h1 h2
  obtain ⟨hp1, hcyc1, hh1⟩ := h1
  obtain ⟨hp2, hcyc2, hh2⟩ := h2
  obtain ⟨hnd1, hsub1⟩ := pool_nodup_subset hN hp1
  obtain ⟨hnd2, hsub2⟩ := pool_nodup_subset hN hp2
  obtain ⟨m1, t1, he1, hmin1⟩ := canonicalHead_min hh1
  obtain ⟨m2, t2, he2, hmin2⟩ := canonicalHead_min hh2
  have hperm : List.Perm c1 c2 := hr.perm
  obtain ⟨n, hn⟩ := hr
  have hm1c1 : m1 ∈ c1 := he1 ▸ List.mem_cons_self m1 t1
  have hm2c1 : m2 ∈ c1 := hperm.mem_iff.mpr (he2 ▸ List.mem_cons_self m2 t2)
  have hm1c2 : m1 ∈ c2 := hperm.mem_iff.mp hm1c1
  have hle1 : N.indexOf m1 ≤ N.indexOf m2 := hmin1 m2 hm2c1
  have hle2 : N.indexOf m2 ≤ N.indexOf m1 := hmin2 m1 hm1c2
  have heq : m1 = m2 :=
    (List.indexOf_inj (hsub1 m1 hm1c1) (hsub1 m2 hm2c1)).mp
      (Nat.le_antisymm hle1 hle2)
  have hlen1 : 0 < c1.length := by rw [he1]; simp
  have hn' : c1.rotate (n % c1.length) = c2 := by rw [List.rotate_mod]; exact hn
  have hltn : n % c1.length < c1.length := Nat.mod_lt _ hlen1
  have hhead2 : c2.head? = some m2 := by rw [he2]; rfl
  have hg : c1[n % c1.length]? = some m1 := by
    rw [← List.head?_rotate hltn, hn', hhead2, heq]
  have hg0 : c1[0]? = some m1 := by rw [he1]; simp
  have h0 : n % c1.length = 0 :=
    List.getElem?_inj hltn hnd1 (by rw [hg, hg0])
  rw [← hn', h0, List.rotate_zero]

theorem mem_edgeList (allFiles : Catalog) (root selected : List String)
    (rawI rawE : String → List String) (a b : String) :
    (a, b) ∈ edgeList allFiles root selected rawI rawE ↔
      ∃ node, (a, node) ∈ analyzedNodes allFiles root selected rawI rawE ∧
        b ∈ node.dependencies := by
  unfold edgeList
  rw [List.mem_flatMap]
  constructor
  · rintro ⟨e, he, hm⟩
    obtain ⟨d, hd, heq⟩ := List.mem_map.mp hm
    have h1 : e.1 = a := congrArg Prod.fst heq
    have h2 : d = b := congrArg Prod.snd heq
    subst h1
    subst h2
    exact ⟨e.2, he, hd⟩
  · rintro ⟨node, hn, hd⟩
    exact ⟨(a, node), hn, List.mem_map.mpr ⟨b, hd, rfl⟩⟩

/-- Claim C7 (confirmed, over the modelled `nx.simple_cycles` contract): the
result's circular-dependencies list consists exactly of the elementary cycles
of the resolved dependency relation of the selected set — every listed cycle
is an elementary cycle, every elementary cycle appears up to rotation, and no
two listed cycles are rotations of each other (one representative per rotation
class); in particular the list is empty when the resolved graph has no cycle
at all. -/
theorem c7_cycles_exact (allFiles : Catalog) (root selected : List String)
    (rawI rawE : String → List String) :
    (∀ c ∈ (analyze_dependencies allFiles root selected rawI rawE).circular_dependencies,
      IsCycleOf (fun a b => ∃ node,
        (a, node) ∈ (analyze_dependencies allFiles root selected rawI rawE).nodes ∧
          b ∈ node.dependencies) c) ∧
    (∀ c, IsCycleOf (fun a b => ∃ node,
        (a, node) ∈ (analyze_dependencies allFiles root selected rawI rawE).nodes ∧
          b ∈ node.dependencies) c →
      ∃ c' ∈ (analyze_dependencies allFiles root selected rawI rawE).circular_dependencies,
        c.IsRotated c') ∧
    (∀ c1 ∈ (analyze_dependencies allFiles root selected rawI rawE).circular_dependencies,
      ∀ c2 ∈ (analyze_dependencies allFiles root selected rawI rawE).circular_dependencies,
        c1.IsRotated c2 → c1 = c2) := by
  have hRiff : ∀ a b : String,
      ((a, b) ∈ edgeList allFiles root selected rawI rawE) ↔
        (∃ node,
          (a, node) ∈ (analyze_dependencies allFiles root selected rawI rawE).nodes ∧
            b ∈ node.dependencies) :=
    fun a b => mem_edgeList allFiles root selected rawI rawE a b
  have hN : ((analyzedNodes allFiles root selected rawI rawE).map Prod.fst).Nodup :=
    analyzedNodes_keys_nodup allFiles root selected rawI rawE
  have hdet : (analyze_dependencies allFiles root selected rawI rawE).circular_dependencies =
      simple_cycles ((analyzedNodes allFiles root selected rawI rawE).map Prod.fst)
        (edgeList allFiles root selected rawI rawE) := rfl
  refine ⟨?_, ?_, ?_⟩
  · intro c hc
    rw [hdet] at hc
    exact (isCycleOf_congr hRiff c).mp (simple_cycles_sound hc)
  · intro c hc
    have hc' := (isCycleOf_congr hRiff c).mpr hc
    have hsub : ∀ x ∈ c,
        x ∈ (analyzedNodes allFiles root selected rawI rawE).map Prod.fst := by
      intro x hx
      obtain ⟨y, node, hn, -⟩ := isCycleOf_mem_source hc x hx
      exact List.mem_map_of_mem Prod.fst hn
    obtain ⟨c', hc'mem, hrot⟩ := simple_cycles_complete hN hc' hsub
    exact ⟨c', by rw [hdet]; exact hc'mem, hrot⟩
  · intro c1 h1 c2 h2 hr
    rw [hdet] at h1 h2
    exact simple_cycles_unique hN h1 h2 hr

/-- Witness for C7 at the three-file cycle `a → b → c → a`: the result's cycle
list is exactly `[[a, b, c]]`, the triple is a genuine elementary cycle of the
result's dependency relation, and the completeness part of the claim theorem
recovers it up to rotation. -/
theorem c7_witness :
    (analyze_dependencies cyc3Catalog [] ["a", "b", "c"] cyc3Raw
        noRaw).circular_dependencies = [["a", "b", "c"]] ∧
    IsCycleOf (fun a b => ∃ node,
        (a, node) ∈ (analyze_dependencies cyc3Catalog [] ["a", "b", "c"] cyc3Raw
          noRaw).nodes ∧ b ∈ node.dependencies) ["a", "b", "c"] ∧
    ∃ c' ∈ (analyze_dependencies cyc3Catalog [] ["a", "b", "c"] cyc3Raw
        noRaw).circular_dependencies,
      (["a", "b", "c"] : List String).IsRotated c' := by
  have hcyc : IsCycleOf (fun a b => ∃ node,
      (a, node) ∈ (analyze_dependencies cyc3Catalog [] ["a", "b", "c"] cyc3Raw
        noRaw).nodes ∧ b ∈ node.dependencies) ["a", "b", "c"] := by
    refine ⟨by simp, by decide, ?_, ?_⟩
    · refine List.chain'_cons.mpr ⟨?_, List.chain'_cons.mpr
        ⟨?_, List.chain'_singleton "c"⟩⟩
      · exact ⟨{ file_id := "a", file_path := ["a.js"], file_type := ".js",
                 imports := ["./b"], exports := [], dependencies := ["b"],
                 dependents := ["c"], is_entry_point := false,
                 is_leaf := false }, by decide, by decide⟩
      · exact ⟨{ file_id := "b", file_path := ["b.js"], file_type := ".js",
                 imports := ["./c"], exports := [], dependencies := ["c"],
                 dependents := ["a"], is_entry_point := false,
                 is_leaf := false }, by decide, by decide⟩
    · exact ⟨{ file_id := "c", file_path := ["c.js"], file_type := ".js",
               imports := ["./a"], exports := [], dependencies := ["a"],
               dependents := ["b"], is_entry_point := false,
               is_leaf := false }, by decide, by decide⟩
  refine ⟨by decide, hcyc, ?_⟩
  exact (c7_cycles_exact cyc3Catalog [] ["a", "b", "c"] cyc3Raw noRaw).2.1
    ["a", "b", "c"] hcyc

end DepAnalyzer
